import Mathlib

/-!
Verification of the repo-to-pdf text-transformation pipeline.

This file shallowly embeds the string-processing core of the repository
(`repo_to_pdf`): path/glob matching, the file-ignore check, the Markdown
and code transformation passes, the emoji substitution, and the SVG/image
conversion control flow.  Python strings are modelled as `List Char`;
Python regular-expression substitutions are modelled by dedicated matcher
functions, one per concrete pattern, each transcribing that pattern's
backtracking semantics; machine-level concerns (filesystem, network,
external rasterizers) appear as explicit oracle parameters or state.
-/

-- ===== DEFINITIONS =====

/-- Python strings are modelled as lists of characters. -/
abbrev Chars := List Char

/-- Shorthand: the character list of a Lean string literal. -/
def chars (s : String) : Chars := s.data

/-- Python `sub in s` (substring containment; empty `sub` is contained in
everything, matching Python semantics). -/
def strContains (s sub : Chars) : Bool :=
  if sub.isPrefixOf s then true
  else
    match s with
    | [] => false
    | _ :: rest => strContains rest sub

/-- Python whitespace characters, as recognised by `str.strip()` /
`str.split()` (ASCII whitespace plus the common Unicode space separators
actually relevant to this code base). -/
def isPyWs (c : Char) : Bool :=
  c = ' ' || c = '\t' || c = '\n' || c = '\r' ||
  c = '\x0b' || c = '\x0c' || c = '\x1c' || c = '\x1d' ||
  c = '\x1e' || c = '\x85' || c = '\xa0' ||
  c = '\u2028' || c = '\u2029' || c = '\u3000'

/-- Python `str.lstrip()` restricted to a set of characters
(`value.lstrip("./")` strips every leading `.` or `/`). -/
def lstripChars (cs : List Char) (s : Chars) : Chars :=
  match s with
  | [] => []
  | c :: rest => if cs.contains c then lstripChars cs rest else c :: s.tail

/-- Python `str.strip()` with the default whitespace set. -/
def pyStrip (s : Chars) : Chars :=
  ((s.dropWhile isPyWs).reverse.dropWhile isPyWs).reverse

/-- Python `str.replace(old, new)`: replace every non-overlapping
occurrence, scanning left to right.  (The degenerate `old = ""` case never
occurs in the embedded code and returns the string unchanged.) -/
def replaceAllFuel (fuel : Nat) (old new : Chars) (s : Chars) : Chars :=
  match fuel with
  | 0 => s
  | fuel + 1 =>
    match s with
    | [] => []
    | c :: rest =>
      if old ≠ [] ∧ old.isPrefixOf (c :: rest) then
        new ++ replaceAllFuel fuel old new ((c :: rest).drop old.length)
      else
        c :: replaceAllFuel fuel old new rest

/-- Python `str.replace(old, new)` (each replacement consumes at least one
character of `s`, so `s.length` fuel suffices; the degenerate `old = ""`
case never occurs in the embedded code). -/
def replaceAll (old new : Chars) (s : Chars) : Chars :=
  replaceAllFuel s.length old new s

/-- Split a character list at every occurrence of a single separator
character (Python `s.split(sep)` for a one-character separator: always at
least one piece, empty pieces preserved). -/
def splitOnCh (sep : Char) : Chars → List Chars
  | [] => [[]]
  | c :: rest =>
    if c = sep then [] :: splitOnCh sep rest
    else
      match splitOnCh sep rest with
      | [] => [[c]]
      | l :: ls => (c :: l) :: ls

/-- `pathlib.PurePath.name` for an already-normalised POSIX path string
without a trailing slash: the final `/`-separated component. -/
def pathName (p : Chars) : Chars :=
  (splitOnCh '/' p).getLastD []

/-- `pathlib.PurePath.suffix`: the extension of the final component,
nonempty exactly when the last dot is neither the first nor the last
character of the name. -/
def pathSuffix (p : Chars) : Chars :=
  let name := pathName p
  match (List.range name.length).filter
      (fun i => name.getD i ' ' = '.') |>.getLast? with
  | some i => if 0 < i ∧ i < name.length - 1 then name.drop i else []
  | none => []

/-- Membership test for one character against the body of an `fnmatch`
bracket class (ranges `a-b` plus literal characters, Python
`fnmatch.translate` semantics: a trailing `-` is literal, an inverted
range matches nothing). -/
def classMatch : Chars → Char → Bool
  | a :: '-' :: b :: rest, c =>
    (decide (a.toNat ≤ c.toNat ∧ c.toNat ≤ b.toNat)) || classMatch rest c
  | a :: rest, c => (a = c) || classMatch rest c
  | [], _ => false

/-- Split at the first occurrence of a character: `some (before, after)`
with the separator removed, or `none` when the character is absent. -/
def breakAtCh (sep : Char) : Chars → Option (Chars × Chars)
  | [] => none
  | c :: rest =>
    if c = sep then some ([], rest)
    else (breakAtCh sep rest).map (fun pr => (c :: pr.1, pr.2))

/-- Parse an `fnmatch` bracket class starting just after `[`: returns the
negation flag, the class body, and the remaining pattern, or `none` when
no closing `]` exists (in which case `[` is matched literally).  A `]`
directly after `[` (or after `[!`) is part of the class body, as in
Python's `fnmatch.translate`. -/
def parseClass (p : Chars) : Option (Bool × Chars × Chars) :=
  let negp1 : Bool × Chars :=
    match p with
    | '!' :: rest => (true, rest)
    | _ => (false, p)
  match negp1.2 with
  | ']' :: rest =>
    match breakAtCh ']' rest with
    | some (body, tail) => some (negp1.1, ']' :: body, tail)
    | none => none
  | other =>
    match breakAtCh ']' other with
    | some (body, tail) => some (negp1.1, body, tail)
    | none => none

/-- One step of shell-style wildcard matching, with fuel: `*` matches any
run, `?` any single character, `[...]` a bracket class.  Each step
consumes at least one pattern or subject character, so
`pat.length + s.length + 1` fuel always suffices. -/
def fnmatchFuel : Nat → Chars → Chars → Bool
  | 0, _, _ => false
  | fuel + 1, pat, s =>
    match pat, s with
    | [], s => s.isEmpty
    | '*' :: p, s =>
      fnmatchFuel fuel p s ||
        (match s with
         | [] => false
         | _ :: s2 => fnmatchFuel fuel ('*' :: p) s2)
    | '?' :: p, s =>
      (match s with
       | [] => false
       | _ :: s2 => fnmatchFuel fuel p s2)
    | '[' :: p, s =>
      (match parseClass p with
       | some (neg, body, p2) =>
         (match s with
          | [] => false
          | c :: s2 => (neg != classMatch body c) && fnmatchFuel fuel p2 s2)
       | none =>
         (match s with
          | [] => false
          | c :: s2 => (c = '[') && fnmatchFuel fuel p s2))
    | a :: p, s =>
      (match s with
       | [] => false
       | c :: s2 => (a = c) && fnmatchFuel fuel p s2)

/-- Shell-style wildcard matching of a whole string against a pattern:
Python `fnmatch.fnmatchcase(s, pat)` (anchored full match). -/
def fnmatchCore (pat s : Chars) : Bool :=
  fnmatchFuel (pat.length + s.length + 1) pat s

/-- `fnmatch.fnmatch(name, pat)` on a POSIX system (where
`os.path.normcase` is the identity, so it equals `fnmatchcase`). -/
def fnmatchPosix (name pat : Chars) : Bool := fnmatchCore pat name

/-- `BINARY_EXTENSIONS` from `repo_to_pdf.core.constants`. -/
def BINARY_EXTENSIONS : List Chars :=
  [chars ".pyc", chars ".pyo", chars ".pyd", chars ".so", chars ".dylib",
   chars ".dll", chars ".class", chars ".o", chars ".obj", chars ".exe",
   chars ".bin"]

/-- `FileProcessor.should_ignore` (`processors/file_processor.py`): a path
is ignored when some configured pattern is a substring of the full path
string, equals the final component, or (for wildcard patterns) fnmatches
the name or the full path; binary extensions are always ignored. -/
def should_ignore (ignore_patterns : List Chars) (path : Chars) : Bool :=
  (ignore_patterns.any fun pattern =>
    strContains path pattern ||
    (pathName path = pattern) ||
    (strContains pattern ['*'] &&
      (fnmatchPosix (pathName path) pattern || fnmatchPosix path pattern))) ||
  BINARY_EXTENSIONS.contains (pathSuffix path)

/-- `_split_posix_parts` (`core/path_matching.py`): strip, normalise `\`
to `/`, strip leading `.`/`/` characters, split on `/`, and drop empty
and `.` segments. -/
def split_posix_parts (value : Chars) : List Chars :=
  let normalized := replaceAll ['\\'] ['/'] (pyStrip value)
  let normalized2 := lstripChars ['.', '/'] normalized
  (splitOnCh '/' normalized2).filter (fun p => p ≠ [] ∧ p ≠ ['.'])

/-- `seg_match` from `posix_glob_match`: single-segment shell-wildcard
match, lowercasing both sides unless case-sensitive. -/
def seg_match (case_sensitive : Bool) (segment pat : Chars) : Bool :=
  if case_sensitive then fnmatchCore pat segment
  else fnmatchCore (pat.map Char.toLower) (segment.map Char.toLower)

def glob_dpFuel (case_sensitive : Bool) : Nat → List Chars → List Chars → Bool
  | 0, _, _ => false
  | fuel + 1, path_parts, pats =>
    match pats with
    | [] => path_parts.isEmpty
    | pat :: pj =>
      if pat = chars "**" then
        glob_dpFuel case_sensitive fuel path_parts pj ||
          (match path_parts with
           | [] => false
           | _ :: pi2 => glob_dpFuel case_sensitive fuel pi2 (pat :: pj))
      else
        match path_parts with
        | [] => false
        | s :: pi2 =>
          seg_match case_sensitive s pat && glob_dpFuel case_sensitive fuel pi2 pj

/-- The `dp` recurrence of `posix_glob_match`: `**` absorbs zero or more
path segments, any other pattern segment must shell-match the aligned
path segment.  Every step consumes a pattern or a path segment, so
`paths + pats + 1` fuel suffices. -/
def glob_dp (case_sensitive : Bool) (path_parts pats : List Chars) : Bool :=
  glob_dpFuel case_sensitive (path_parts.length + pats.length + 1) path_parts pats

/-- `posix_glob_match(path, pattern, case_sensitive=False)`
(`core/path_matching.py`). -/
def posix_glob_match (path pattern : Chars) (case_sensitive : Bool := false) : Bool :=
  glob_dp case_sensitive (split_posix_parts path) (split_posix_parts pattern)

/-- Specification-side alignment relation, written from the spec's words:
a pattern-segment list aligns with a path-segment list when every
non-`**` pattern segment shell-matches its positionally aligned path
segment and each `**` absorbs zero or more whole path segments. -/
inductive SpecAligns : List Chars → List Chars → Prop
  | nil : SpecAligns [] []
  | starZero {S P} : SpecAligns S P → SpecAligns S (chars "**" :: P)
  | starMore {s S P} :
      SpecAligns S (chars "**" :: P) → SpecAligns (s :: S) (chars "**" :: P)
  | seg {s p S P} : p ≠ chars "**" → seg_match false s p = true →
      SpecAligns S P → SpecAligns (s :: S) (p :: P)

/-- Python line-break characters recognised by `str.splitlines`. -/
def isLineBreak (c : Char) : Bool :=
  c = '\n' || c = '\r' || c = '\x0b' || c = '\x0c' ||
  c = '\x1c' || c = '\x1d' || c = '\x1e' || c = '\x85' ||
  c = '\u2028' || c = '\u2029'

/-- Python `str.splitlines()`: split at every line-break character
(`\r\n` counts as one break), with no entry after a trailing
terminator. -/
def splitlinesPy : Chars → List Chars
  | [] => []
  | [c] => if isLineBreak c then [[]] else [[c]]
  | c :: d :: rest =>
    if isLineBreak c then
      if c = '\r' ∧ d = '\n' then [] :: splitlinesPy rest
      else [] :: splitlinesPy (d :: rest)
    else
      match splitlinesPy (d :: rest) with
      | [] => [[c]]
      | l :: ls => (c :: l) :: ls

/-- Python `sep.join(pieces)`. -/
def pyJoin (sep : Chars) : List Chars → Chars
  | [] => []
  | [l] => l
  | l :: l2 :: ls => l ++ sep ++ pyJoin sep (l2 :: ls)

/-- A string free of every line-break character. -/
def lbFree (s : Chars) : Bool := s.all (fun c => !isLineBreak c)

/-- A string whose only line-break characters are `\n`. -/
def nlOnly (s : Chars) : Bool := s.all (fun c => c = '\n' || !isLineBreak c)

/-- Drop a single trailing empty entry (the difference between
`str.splitlines` and `str.split("\n")` on a string ending in `\n`). -/
def dropTrailingEmpty (L : List Chars) : List Chars :=
  match L.getLast? with
  | some [] => L.dropLast
  | _ => L

/-- Fixed-width slicing of one line,
`[ln[i:i+w] for i in range(0, len(ln), w)]`; the call sites always pass
`w ≥ 40`, so `ln.length` fuel suffices. -/
def chunksOfFuel (fuel w : Nat) (l : Chars) : List Chars :=
  match fuel with
  | 0 => []
  | fuel + 1 =>
    if l.isEmpty then [] else l.take w :: chunksOfFuel fuel w (l.drop w)

/-- `[ln[i:i+w] for i in range(0, len(ln), w)]` for `w ≥ 1`. -/
def chunksOf (w : Nat) (l : Chars) : List Chars := chunksOfFuel l.length w l

/-- `hard_wrap_threshold = max(40, self.max_line_length)`
(`code_processor.py` / `markdown_processor.py`). -/
def hard_wrap_threshold (m : Nat) : Nat := max 40 m

/-- `wrap_width = max(40, min(160, int(self.max_line_length * 0.75)))`;
`int(m * 0.75)` is exactly `3 * m / 4` for the configured range. -/
def wrap_width (m : Nat) : Nat := max 40 (min 160 (m * 3 / 4))

/-- One line of `CodeProcessor._hard_wrap_lines`: a line longer than the
threshold is sliced into `wrap_width`-sized chunks joined by newlines. -/
def hardWrapLine (m : Nat) (ln : Chars) : Chars :=
  if ln.length > hard_wrap_threshold m then
    pyJoin ['\n'] (chunksOf (wrap_width m) ln)
  else ln

/-- `CodeProcessor._hard_wrap_lines` (`processors/code_processor.py`):
split into lines, hard-wrap each overlong line, and re-join with `\n`. -/
def hard_wrap_lines (m : Nat) (content : Chars) : Chars :=
  pyJoin ['\n'] ((splitlinesPy content).map (hardWrapLine m))

/-- Leading-backtick run of a line. -/
def leadingBackticks (l : Chars) : Chars := l.takeWhile (fun c => c = '`')

/-- `re.match(r"^(?P<fence>`+``)(?P<info>.*)$", ln)` (three or more
leading backticks): returns the fence group when the line opens a fenced
block. -/
def fenceOpenMatch (l : Chars) : Option Chars :=
  if (leadingBackticks l).length ≥ 3 then some (leadingBackticks l) else none

/-- `ln.replace("\\", "\\\\")`: double every backslash. -/
def doubleBackslashes (l : Chars) : Chars :=
  replaceAll ['\\'] ['\\', '\\'] l

/-- `ln.split()[0]`: the first whitespace-delimited token of a line
(call sites guarantee the line is nonempty and starts with a backtick,
so the token exists). -/
def pyFirstToken (l : Chars) : Chars :=
  (l.dropWhile isPyWs).takeWhile (fun c => !isPyWs c)

/-- The line loop of `MarkdownProcessor._escape_backslash_u_sequences`:
outside a fenced block lines pass through unchanged; a line of three or
more backticks opens a block; inside a block, a line starting with the
opening fence whose first token is at least as long closes it, and every
other line has its backslashes doubled. -/
def escLoop : List Chars → Option Chars → List Chars
  | [], _ => []
  | ln :: rest, none =>
    match fenceOpenMatch ln with
    | some f => ln :: escLoop rest (some f)
    | none => ln :: escLoop rest none
  | ln :: rest, some fence =>
    if fence.isPrefixOf ln then
      if (pyFirstToken ln).length ≥ fence.length then ln :: escLoop rest none
      else doubleBackslashes ln :: escLoop rest (some fence)
    else doubleBackslashes ln :: escLoop rest (some fence)

/-- `MarkdownProcessor._escape_backslash_u_sequences`
(`processors/markdown_processor.py`): despite its name, the pass doubles
backslashes inside fenced code blocks and leaves text outside fenced
blocks untouched. -/
def escape_backslash_u_sequences (content : Chars) : Chars :=
  pyJoin ['\n'] (escLoop (splitlinesPy content) none)

/-- `re.sub`-style driver: at every position try `matchAt` on the suffix;
on a match `(n, repl)` with `n > 0` emit `repl` and continue after the
match, otherwise keep one character and move on.  All patterns in the
embedded code match at least one character, so a zero-length match is
treated as no match; one unit of fuel per input character suffices. -/
def reSubFuel (matchAt : Chars → Option (Nat × Chars)) : Nat → Chars → Chars
  | 0, s => s
  | _ + 1, [] => []
  | fuel + 1, c :: rest =>
    match matchAt (c :: rest) with
    | some (n, repl) =>
      if n = 0 then c :: reSubFuel matchAt fuel rest
      else repl ++ reSubFuel matchAt fuel ((c :: rest).drop n)
    | none => c :: reSubFuel matchAt fuel rest

/-- `re.sub(pattern, repl, s)` for a pattern modelled by `matchAt`. -/
def reSub (matchAt : Chars → Option (Nat × Chars)) (s : Chars) : Chars :=
  reSubFuel matchAt s.length s

/-- `re.finditer`-style scan: the list of matched substrings, leftmost
and non-overlapping. -/
def reScanFuel (matchAt : Chars → Option Nat) : Nat → Chars → List Chars
  | 0, _ => []
  | _ + 1, [] => []
  | fuel + 1, c :: rest =>
    match matchAt (c :: rest) with
    | some n =>
      if n = 0 then reScanFuel matchAt fuel rest
      else (c :: rest).take n :: reScanFuel matchAt fuel ((c :: rest).drop n)
    | none => reScanFuel matchAt fuel rest

/-- The matched substrings of a pattern in `s` (leftmost,
non-overlapping). -/
def reScan (matchAt : Chars → Option Nat) (s : Chars) : List Chars :=
  reScanFuel matchAt s.length s

/-- The base emoji character class of `EmojiHandler._compile_emoji_regex`:
`[\U0001F300-\U0001FAFF\u2600-\u27BF]`. -/
def inEmojiRange (c : Char) : Bool :=
  (0x1F300 ≤ c.toNat && c.toNat ≤ 0x1FAFF) ||
  (0x2600 ≤ c.toNat && c.toNat ≤ 0x27BF)

/-- U+200D ZERO WIDTH JOINER. -/
def zwjChar : Char := '\u200D'

/-- U+FE0F VARIATION SELECTOR-16. -/
def vs16Char : Char := '\uFE0F'

/-- Length consumed by the greedy `(?:\u200D[base](\uFE0F)?)*` tail of
the emoji pattern, starting at the given suffix. -/
def emojiZwjLoopLen : Chars → Nat
  | z :: c :: rest =>
    if z = zwjChar && inEmojiRange c then
      match rest with
      | f :: rest2 =>
        if f = vs16Char then 3 + emojiZwjLoopLen rest2
        else 2 + emojiZwjLoopLen (f :: rest2)
      | [] => 2
    else 0
  | _ => 0

/-- Length of the emoji-pattern match at the start of `s`
(`([base])(\uFE0F)?(?:\u200D[base](\uFE0F)?)*`); `none` when the first
character is not a base emoji. -/
def emojiMatchLen (s : Chars) : Option Nat :=
  match s with
  | [] => none
  | c :: rest =>
    if inEmojiRange c then
      match rest with
      | f :: rest2 =>
        if f = vs16Char then some (2 + emojiZwjLoopLen rest2)
        else some (1 + emojiZwjLoopLen (f :: rest2))
      | [] => some 1
    else none

/-- `EmojiHandler._codepoints_to_sequence`: hyphen-joined lowercase-hex
code points of the matched emoji. -/
def codepoints_to_sequence (emoji : Chars) : Chars :=
  pyJoin ['-'] (emoji.map (fun ch => Nat.toDigits 16 ch.toNat))

/-- The replacement `replace_emoji_in_text` performs for one match:
resolve a PNG through `ensure_emoji_png` (modelled as an oracle from
code-point sequence to optional cached filename) and emit the standard
LaTeX `\emojiimg{...}` directive, or keep the emoji literally when it is
unresolvable.  The same form is used in both code and prose context,
exactly as in the source. -/
def emojiReplacement (ensurePng : Chars → Option Chars) (matched : Chars) : Chars :=
  match ensurePng (codepoints_to_sequence matched) with
  | some png => chars "\\emojiimg\x7b" ++ png ++ chars "\x7d"
  | none => matched

/-- The emoji pattern as a sub matcher. -/
def emojiMatcher (ensurePng : Chars → Option Chars) (s : Chars) :
    Option (Nat × Chars) :=
  (emojiMatchLen s).map (fun n => (n, emojiReplacement ensurePng (s.take n)))

/-- `EmojiHandler.replace_emoji_in_text(text, in_code)`
(`converters/emoji_handler.py`); `ensure_emoji_png` is an oracle
parameter.  The function body never reads `in_code`. -/
def replace_emoji_in_text (ensurePng : Chars → Option Chars) (text : Chars)
    (in_code : Bool) : Chars :=
  reSub (emojiMatcher ensurePng) text

/-- `EmojiHandler.replace_emoji_in_code`: delegates to
`replace_emoji_in_text` with `in_code=True`. -/
def replace_emoji_in_code (ensurePng : Chars → Option Chars) (text : Chars) : Chars :=
  replace_emoji_in_text ensurePng text true

/-- Emoji detection: the match spans the compiled pattern produces over a
text (as in `re.finditer`/`pattern.sub`; `extract_emojis` runs `findall`
over the same pattern, whose underlying matches are these spans). -/
def emojiMatchSpans (text : Chars) : List Chars :=
  reScan emojiMatchLen text

/-- A zero-width-joiner composite emoji: a base emoji code point with
optional VS16, followed by ZWJ-joined continuation emoji each with
optional VS16. -/
def compositeEmoji (base : Char) (v : Bool) (conts : List (Char × Bool)) : Chars :=
  base :: ((if v then [vs16Char] else []) ++
    (conts.map
      (fun bc => zwjChar :: bc.1 :: (if bc.2 then [vs16Char] else []))).flatten)

/-- Split at every character satisfying a predicate (empty pieces
preserved). -/
def splitOnPred (p : Char → Bool) : Chars → List Chars
  | [] => [[]]
  | c :: rest =>
    if p c then [] :: splitOnPred p rest
    else
      match splitOnPred p rest with
      | [] => [[c]]
      | l :: ls => (c :: l) :: ls

/-- Python `str.split()` with no argument: split on whitespace runs,
dropping empty pieces. -/
def pyWsSplit (s : Chars) : List Chars :=
  (splitOnPred isPyWs s).filter (fun piece => piece ≠ [])

/-- Decimal digit run to a natural number. -/
def digitsToNat (ds : Chars) : Nat :=
  ds.foldl (fun acc c => acc * 10 + (c.toNat - 48)) 0

/-- Python `float(s)` on the plain-decimal subset
(`[+-] digits [. digits]`) used by the SVG dimension strings, returned
as the scaled integer numerator `sign * (int * 10^k + frac)` whose
denominator `10^k` is positive — so the float value is zero exactly when
this numerator is zero, which is the only question the embedded code
asks of it.  `none` models `ValueError` (exotic accepted forms such as
exponents, `inf` or underscore separators parse as `none`, which
`_is_zero_dimension` maps to the same `False` as their nonzero Python
values). -/
def parsePyFloat (s : Chars) : Option Int :=
  let signAndRest : Int × Chars :=
    match s with
    | '+' :: r => (1, r)
    | '-' :: r => (-1, r)
    | _ => (1, s)
  let intPart := signAndRest.2.takeWhile Char.isDigit
  let rest := signAndRest.2.dropWhile Char.isDigit
  match rest with
  | [] =>
    if intPart = [] then none
    else some (signAndRest.1 * (digitsToNat intPart : Int))
  | '.' :: frac =>
    let fracD := frac.takeWhile Char.isDigit
    let rest2 := frac.dropWhile Char.isDigit
    if rest2 ≠ [] then none
    else if intPart = [] ∧ fracD = [] then none
    else
      some (signAndRest.1 *
        ((digitsToNat intPart : Int) * (10 : Int) ^ fracD.length +
          (digitsToNat fracD : Int)))
  | _ => none

/-- `ImageConverter._is_zero_dimension`: strip `px` and whitespace, parse
as float, and compare with zero; empty or unparsable strings are not
zero. -/
def is_zero_dimension (dimension : Chars) : Bool :=
  if dimension = [] then false
  else
    match parsePyFloat (pyStrip (replaceAll (chars "px") [] dimension)) with
    | some v => v = 0
    | none => false

/-- `ImageConverter._clean_svg_content`: remove the two XML declaration
forms and strip. -/
def clean_svg_content (svg_content : Chars) : Chars :=
  pyStrip (replaceAll (chars "<?xml version=\"1.0\"?>") []
    (replaceAll (chars "<?xml version=\"1.0\" encoding=\"UTF-8\"?>") []
      svg_content))

/-- `ImageConverter._is_icon_definition`: a `<symbol>`, or `<defs>`
without `<use`. -/
def is_icon_definition (svg_content : Chars) : Bool :=
  strContains svg_content (chars "<symbol") ||
  (strContains svg_content (chars "<defs>") &&
    !strContains svg_content (chars "<use"))

/-- The parsed XML element `ET.fromstring` yields, reduced to what the
image converter reads and writes: its attribute list. -/
structure SvgTree where
  attrs : List (Chars × Chars)
deriving DecidableEq

/-- `tree.get(key, default)`. -/
def treeGet (t : SvgTree) (key dflt : Chars) : Chars :=
  match t.attrs.find? (fun kv => kv.1 = key) with
  | some kv => kv.2
  | none => dflt

/-- `tree.set(key, value)`: replace an existing attribute or append a new
one. -/
def treeSet (t : SvgTree) (key val : Chars) : SvgTree :=
  if (t.attrs.find? (fun kv => kv.1 = key)).isSome then
    ⟨t.attrs.map (fun kv => if kv.1 = key then (key, val) else kv)⟩
  else ⟨t.attrs ++ [(key, val)]⟩

/-- `ImageConverter._extract_from_viewbox`: when the `viewBox` has four
parts with nonzero width/height, set `width`/`height` (px-suffixed) on
the tree and return them; any parse failure or zero dimension is caught
and yields the unchanged tree with empty strings. -/
def extract_from_viewbox (viewbox : Chars) (tree : SvgTree) :
    SvgTree × Chars × Chars :=
  match pyWsSplit viewbox with
  | [_, _, vb_width, vb_height] =>
    (match parsePyFloat vb_width, parsePyFloat vb_height with
     | some w, some h =>
       if w = 0 ∨ h = 0 then (tree, [], [])
       else
         let t2 := treeSet (treeSet tree (chars "width")
           (vb_width ++ chars "px")) (chars "height") (vb_height ++ chars "px")
         (t2, vb_width ++ chars "px", vb_height ++ chars "px")
     | _, _ => (tree, [], []))
  | _ => (tree, [], [])

/-- Does a dimension string carry one of the recognised units
(case-insensitively)? -/
def hasUnitSub (value : Chars) : Bool :=
  let lv := value.map Char.toLower
  strContains lv (chars "px") || strContains lv (chars "pt") ||
  strContains lv (chars "cm") || strContains lv (chars "mm") ||
  strContains lv (chars "in")

/-- One dimension of `ImageConverter._ensure_units`. -/
def ensureUnit1 (tree : SvgTree) (dim : Chars) : SvgTree :=
  let value := treeGet tree dim []
  if value ≠ [] ∧ hasUnitSub value = false then
    treeSet tree dim (value ++ chars "px")
  else tree

/-- `ImageConverter._ensure_units`: px-suffix unit-less width/height. -/
def ensure_units (tree : SvgTree) : SvgTree :=
  ensureUnit1 (ensureUnit1 tree (chars "width")) (chars "height")

/-- `ImageConverter._fix_svg_dimensions` after the `ET.fromstring` parse
(the parse itself is an oracle of the conversion environment): `none`
models the `ImageProcessingError` raised for zero explicit dimensions;
otherwise dimensions are derived from the `viewBox` when absent, default
to `800px`/`600px`, and get unit suffixes. -/
def fix_svg_dimensions (tree : SvgTree) : Option SvgTree :=
  let width := pyStrip (treeGet tree (chars "width") [])
  let height := pyStrip (treeGet tree (chars "height") [])
  let viewbox := pyStrip (treeGet tree (chars "viewBox") [])
  if is_zero_dimension width || is_zero_dimension height then none
  else
    let tree1 :=
      if viewbox ≠ [] ∧ ¬(width ≠ [] ∧ height ≠ []) then
        (extract_from_viewbox viewbox tree).1
      else tree
    let tree2 :=
      if ¬(treeGet tree1 (chars "width") [] ≠ [] ∧
          treeGet tree1 (chars "height") [] ≠ []) then
        treeSet (treeSet tree1 (chars "width") (chars "800px"))
          (chars "height") (chars "600px")
      else tree1
    some (ensure_units tree2)

/-- The cache directory contents of the `ImageConverter`, as the list of
file paths present. -/
abbrev CacheFiles := List Chars

/-- The external-world oracles of `convert_svg_to_png`: the XML parser
(`ET.fromstring`, `none` = `ParseError`), serialisation (`ET.tostring`),
the primary rasteriser (`cairosvg.svg2png` succeeding or raising), and
the Inkscape CLI fallback (exit code 0 and output file present). -/
structure RasterEnv where
  parse : Chars → Option SvgTree
  tostring : SvgTree → Chars
  cairosvgOk : Chars → Bool
  inkscapeOk : Chars → Bool

/-- `ImageConverter._convert_with_inkscape`: writes a temporary SVG next
to the output, invokes the Inkscape CLI, and deletes the temporary file;
returns true iff the process exits 0 and the output exists, in which
case the output file is the net file-system effect. -/
def convert_with_inkscape (env : RasterEnv) (svg_content output_path : Chars)
    (files : CacheFiles) : Bool × CacheFiles :=
  if env.inkscapeOk svg_content then (true, output_path :: files)
  else (false, files)

/-- `ImageConverter.convert_svg_to_png` (`converters/image_converter.py`):
clean the content, skip icon-definition sheets, fix dimensions (raising
on zero width/height), rasterise with cairosvg; ANY exception — parse
error, zero dimensions, or a cairosvg failure — lands in the generic
`except` handler, which falls back to Inkscape when enabled.  Returns
success and the resulting file state. -/
def convert_svg_to_png (env : RasterEnv) (svg_content output_path : Chars)
    (use_inkscape_fallback : Bool) (files : CacheFiles) : Bool × CacheFiles :=
  let cleaned := clean_svg_content svg_content
  if is_icon_definition cleaned then (false, files)
  else
    match env.parse cleaned with
    | none =>
      if use_inkscape_fallback then
        convert_with_inkscape env cleaned output_path files
      else (false, files)
    | some tree =>
      match fix_svg_dimensions tree with
      | none =>
        if use_inkscape_fallback then
          convert_with_inkscape env cleaned output_path files
        else (false, files)
      | some fixedTree =>
        let fixedStr := env.tostring fixedTree
        if env.cairosvgOk fixedStr then (true, output_path :: files)
        else if use_inkscape_fallback then
          convert_with_inkscape env fixedStr output_path files
        else (false, files)

/-- `ImageConverter.convert_svg_content_to_png`
(`converters/image_converter.py`): hash the SVG text
(`hashlib.md5(...).hexdigest()`, modelled as an oracle `hash`),
short-circuit when `{hash}.png` is already in the cache directory, else
invoke the rasteriser `inner` (= `convert_svg_to_png`, abstracted so the
statement does not fix a raster environment).  Returns the filename on
success, `none` on failure, the new cache state, and whether the
rasteriser was invoked. -/
def convert_svg_content_to_png (hash : Chars → Chars)
    (inner : Chars → Chars → CacheFiles → Bool × CacheFiles)
    (files : CacheFiles) (svg_content : Chars) :
    Option Chars × CacheFiles × Bool :=
  let png_name := hash svg_content ++ chars ".png"
  if png_name ∈ files then (some png_name, files, false)
  else
    let result := inner svg_content png_name files
    if result.1 then (some png_name, result.2, true)
    else (none, result.2, true)

/-- Python `str.lstrip()` (default whitespace). -/
def pyLstrip (s : Chars) : Chars := s.dropWhile isPyWs

/-- Python `str.rstrip()` (default whitespace). -/
def pyRstrip (s : Chars) : Chars := (s.reverse.dropWhile isPyWs).reverse

/-- Python `s.find(sub)` as an option (index of first occurrence). -/
def findSub (s sub : Chars) : Option Nat :=
  if sub.isPrefixOf s then some 0
  else
    match s with
    | [] => none
    | _ :: rest => (findSub rest sub).map (fun i => i + 1)

/-- `CodeProcessor.C_LIKE_EXTENSIONS`. -/
def C_LIKE_EXTENSIONS : List Chars :=
  [chars ".js", chars ".jsx", chars ".ts", chars ".tsx", chars ".java",
   chars ".cpp", chars ".c", chars ".go", chars ".cs", chars ".php"]

/-- `CodeProcessor.SHARP_EXTENSIONS`. -/
def SHARP_EXTENSIONS : List Chars :=
  [chars ".py", chars ".sh", chars ".bash", chars ".zsh", chars ".rb",
   chars ".yaml", chars ".yml", chars ".toml", chars ".ini"]

/-- `CodeProcessor.SQL_EXTENSIONS`. -/
def SQL_EXTENSIONS : List Chars := [chars ".sql"]

/-- `strip_line_comment` inside `extract_header_comment`: remove the
comment marker and following space from an lstripped line, or return the
line unchanged. -/
def strip_line_comment (s marker : Chars) : Chars :=
  let t := pyLstrip s
  if marker.isPrefixOf t then pyLstrip (t.drop marker.length) else s

/-- The `while i < n` loop reading a `/* ... */` block comment: returns
the collected buffer and the number of lines consumed (the current,
possibly already-trimmed, line counts as the first). -/
def blockCommentLoop (line : Chars) (rest : List Chars) : List Chars × Nat :=
  match findSub line (chars "*/") with
  | some p => ([line.take p], 1)
  | none =>
    match rest with
    | [] => ([line], 1)
    | next :: rest2 =>
      let br := blockCommentLoop next rest2
      (line :: br.1, br.2 + 1)

/-- A maximal run of lines whose lstripped form starts with `marker`,
each passed through `strip_line_comment`; also returns the run length. -/
def lineCommentRun (marker : Chars) : List Chars → List Chars × Nat
  | [] => ([], 0)
  | l :: rest =>
    if marker.isPrefixOf (pyLstrip l) then
      let hr := lineCommentRun marker rest
      (strip_line_comment l marker :: hr.1, hr.2 + 1)
    else ([], 0)

/-- Is the line at the front of `ls` blank (after which the extractor
skips one line)? -/
def blankAtFront (ls : List Chars) : Bool :=
  match ls with
  | [] => false
  | l :: _ => pyStrip l = []

/-- `CodeProcessor.extract_header_comment` (`processors/code_processor.py`):
pull a leading comment block (C-style `/* */` and `//`, hash `#`, or SQL
`--`) off the top of the file, skipping one trailing blank line, and
return `(header_text, remaining_code)`; files starting with a blank line
or an unsupported comment style pass through unchanged. -/
def extract_header_comment (content : Chars) (file_extension : Chars) :
    Chars × Chars :=
  let lines := splitlinesPy content
  if lines = [] then ([], content)
  else if pyStrip (lines.headD []) = [] then ([], content)
  else
    let branch : Option (List Chars × Nat) :=
      if C_LIKE_EXTENSIONS.contains file_extension then
        let l0 := pyLstrip (lines.headD [])
        if (chars "/*").isPrefixOf l0 then
          let br := blockCommentLoop (l0.drop 2) lines.tail
          let cr := lineCommentRun (chars "//") (lines.drop br.2)
          let afterBlank : Nat :=
            if blankAtFront (lines.drop (br.2 + cr.2)) then 1 else 0
          some (pyJoin ['\n'] br.1 :: cr.1, br.2 + cr.2 + afterBlank)
        else if (chars "//").isPrefixOf l0 then
          some (lineCommentRun (chars "//") lines)
        else none
      else if SHARP_EXTENSIONS.contains file_extension then
        if (chars "#").isPrefixOf (pyLstrip (lines.headD [])) then
          some (lineCommentRun (chars "#") lines)
        else none
      else if SQL_EXTENSIONS.contains file_extension then
        if (chars "--").isPrefixOf (pyLstrip (lines.headD [])) then
          some (lineCommentRun (chars "--") lines)
        else none
      else none
    match branch with
    | none => ([], content)
    | some hi =>
      let i2 := if blankAtFront (lines.drop hi.2) then hi.2 + 1 else hi.2
      (pyStrip (pyJoin ['\n'] (hi.1.map pyRstrip)),
        pyJoin ['\n'] (lines.drop i2))

/-- The accumulation loop of `CodeProcessor._break_array_line`. -/
def breakArrayLoop (indent : Chars) (maxLen : Nat) (current : Chars) :
    List Chars → List Chars
  | [] => [current]
  | part :: rest =>
    if (current ++ [','] ++ part).length > maxLen then
      (current ++ [',']) ::
        breakArrayLoop indent maxLen (indent ++ pyLstrip part) rest
    else breakArrayLoop indent maxLen (current ++ [','] ++ part) rest

/-- `CodeProcessor._break_array_line`: split at commas, re-packing into
lines of at most `maxLen` characters re-indented to the original
indentation. -/
def break_array_line (line : Chars) (maxLen : Nat) : Chars :=
  let indent := List.replicate (line.length - (pyLstrip line).length) ' '
  match splitOnCh ',' line with
  | [] => line
  | p0 :: ps => pyJoin ['\n'] (breakArrayLoop indent maxLen p0 ps)

/-- The replacer closure of `CodeProcessor._break_long_strings`: chop the
quoted body into 80-character pieces joined by
`quote backslash newline indent`, where `quote` is the opening quote of
the match and `indent` the whole line's indentation. -/
def breakLongReplacement (line : Chars) (q q2 : Char) (s : Chars) : Chars :=
  let indent := List.replicate (line.length - (pyLstrip line).length) ' '
  let parts := chunksOf 80 s
  if parts.length > 1 then pyJoin (q :: '\\' :: '\n' :: indent) parts ++ [q]
  else q :: s ++ [q2]

/-- `CodeProcessor._break_long_strings`: `re.sub` of
`["\']([^"\']{100,})["\']` — an opening quote, a greedy run of 100+
non-quote characters, and a closing quote (either kind). -/
def break_long_strings (line : Chars) : Chars :=
  reSub (fun s =>
    match s with
    | q :: rest =>
      if q = '"' ∨ q = '\'' then
        let run := rest.takeWhile (fun c => ¬(c = '"' ∨ c = '\''))
        match rest.drop run.length with
        | q2 :: _ =>
          if 100 ≤ run.length then
            some (run.length + 2, breakLongReplacement line q q2 run)
          else none
        | [] => none
      else none
    | [] => none) line

/-- `MAX_LINE_LENGTH_DEFAULT` (`core/constants.py`). -/
def MAX_LINE_LENGTH_DEFAULT : Nat := 80

/-- `MAX_LINES_BEFORE_SPLIT` (`core/constants.py`). -/
def MAX_LINES_BEFORE_SPLIT : Nat := 1000

/-- `CHUNK_SIZE_LINES` (`core/constants.py`). -/
def CHUNK_SIZE_LINES : Nat := 800

/-- `CodeProcessor.process_long_lines`: keep short lines; break lines
with bracket pairs at commas; break lines with long quoted strings;
leave the rest. -/
def process_long_lines (content : Chars)
    (max_length : Nat := MAX_LINE_LENGTH_DEFAULT) : Chars :=
  pyJoin ['\n'] ((splitlinesPy content).map (fun line =>
    if line.length ≤ max_length then line
    else if strContains line ['['] && strContains line [']'] then
      break_array_line line max_length
    else if strContains line ['"'] || strContains line ['\''] then
      break_long_strings line
    else line))

/-- `CODE_EXTENSIONS` (`core/constants.py`): extension → highlight
language. -/
def CODE_EXTENSIONS : List (Chars × Chars) :=
  [(chars ".js", chars "javascript"), (chars ".jsx", chars "javascript"),
   (chars ".ts", chars "typescript"), (chars ".tsx", chars "typescript"),
   (chars ".vue", chars "javascript"), (chars ".svelte", chars "javascript"),
   (chars ".css", chars "css"), (chars ".scss", chars "css"),
   (chars ".sass", chars "css"), (chars ".less", chars "css"),
   (chars ".html", chars "html"), (chars ".htm", chars "html"),
   (chars ".json", chars "json"), (chars ".graphql", chars "graphql"),
   (chars ".gql", chars "graphql"), (chars ".py", chars "python"),
   (chars ".java", chars "java"), (chars ".cpp", chars "cpp"),
   (chars ".cc", chars "cpp"), (chars ".cxx", chars "cpp"),
   (chars ".c", chars "c"), (chars ".h", chars "c"),
   (chars ".hpp", chars "cpp"), (chars ".go", chars "go"),
   (chars ".rs", chars "rust"), (chars ".rb", chars "ruby"),
   (chars ".php", chars "php"), (chars ".cs", chars "csharp"),
   (chars ".kt", chars "kotlin"), (chars ".swift", chars "swift"),
   (chars ".scala", chars "scala"), (chars ".clj", chars "clojure"),
   (chars ".ex", chars "elixir"), (chars ".exs", chars "elixir"),
   (chars ".erl", chars "erlang"), (chars ".lua", chars "lua"),
   (chars ".r", chars "r"), (chars ".R", chars "r"),
   (chars ".sh", chars "bash"), (chars ".bash", chars "bash"),
   (chars ".zsh", chars "bash"), (chars ".fish", chars "fish"),
   (chars ".sql", chars "sql"), (chars ".yaml", chars "yaml"),
   (chars ".yml", chars "yaml"), (chars ".toml", chars "toml"),
   (chars ".xml", chars "xml"), (chars ".ini", chars "ini"),
   (chars ".conf", chars "conf"), (chars ".env", chars "bash"),
   (chars ".md", chars "markdown"), (chars ".mdx", chars "mdx"),
   (chars ".rst", chars "rst"), (chars ".txt", chars "text"),
   (chars ".dockerfile", chars "dockerfile"),
   (chars ".Dockerfile", chars "dockerfile"),
   (chars ".makefile", chars "makefile"),
   (chars ".Makefile", chars "makefile")]

/-- `CODE_EXTENSIONS.get(ext, "text")`. -/
def code_lang (ext : Chars) : Chars :=
  match CODE_EXTENSIONS.find? (fun kv => kv.1 = ext) with
  | some kv => kv.2
  | none => chars "text"

/-- Decimal rendering of a natural number. -/
def natChars (n : Nat) : Chars := (Nat.repr n).data

/-- The note `_split_large_file` prepends. -/
def split_note (total_lines num_parts : Nat) : Chars :=
  chars "\n> 注意：此文件包含 " ++ natChars total_lines ++
    chars " 行，已分为 " ++ natChars num_parts ++ chars " 个部分显示\n"

/-- One part header of `_split_large_file`. -/
def part_header (relative_path : Chars) (i num_parts start_line end_line : Nat) :
    Chars :=
  chars "\n## " ++ relative_path ++ chars " - 第 " ++ natChars i ++
    chars "/" ++ natChars num_parts ++ chars " 部分 (行 " ++
    natChars start_line ++ chars "-" ++ natChars end_line ++ chars ")"

/-- One part body of `_split_large_file`: a raw-LaTeX `CodeBlock` when
the part still contains the legacy `§emojiimg` marker, otherwise a
5-backtick fenced block tagged with the language. -/
def split_part_block (lang part_content : Chars) : Chars :=
  if strContains part_content (chars "§emojiimg") then
    chars "\n```\x7b=latex\x7d\n" ++ chars "\\begin\x7bCodeBlock\x7d\n" ++
      part_content ++ chars "\n\\end\x7bCodeBlock\x7d\n" ++ chars "```\n"
  else
    chars "\n`````" ++ lang ++ chars "\n" ++ part_content ++
      chars "\n`````\n"

/-- The `for i in range(num_parts)` loop of `_split_large_file`,
recursing on the number of remaining parts. -/
def splitPartsAux (relative_path lang : Chars) (lines : List Chars)
    (num_parts total : Nat) : Nat → Nat → Chars
  | _, 0 => []
  | i, count + 1 =>
    let start := i * CHUNK_SIZE_LINES
    let endL := min ((i + 1) * CHUNK_SIZE_LINES) total
    let part_content := pyJoin ['\n'] ((lines.drop start).take (endL - start))
    part_header relative_path (i + 1) num_parts (start + 1) endL ++
      split_part_block lang part_content ++
      splitPartsAux relative_path lang lines num_parts total (i + 1) count

/-- `CodeProcessor._split_large_file` (`processors/code_processor.py`):
note line, then one titled fenced part per 800-line chunk. -/
def split_large_file (relative_path : Chars) (lines : List Chars)
    (lang : Chars) : Chars :=
  let total := lines.length
  let num_parts := (total + CHUNK_SIZE_LINES - 1) / CHUNK_SIZE_LINES
  split_note total num_parts ++
    splitPartsAux relative_path lang lines num_parts total 0 num_parts

/-- `CodeProcessor._format_code_output`: path heading, optional header
prose, 5-backtick fenced block (the `contains_emoji` argument is
accepted and unused, as in the source). -/
def format_code_output (relative_path header_md code_content lang : Chars)
    (contains_emoji : Bool) : Chars :=
  chars "\n\n# " ++ relative_path ++ chars "\n\n" ++ header_md ++
    chars "`````" ++ lang ++ chars "\n" ++ code_content ++
    chars "\n`````\n\n"

/-- The configuration slice `CodeProcessor` reads from
`config.pdf_settings`. -/
structure CodeProcConfig where
  max_line_length : Nat
  split_large_files : Bool
  render_header_comments_outside : Bool

/-- `CodeProcessor.process_code_file` (`processors/code_processor.py`):
optional header extraction, long-line softening, hard wrap, emoji
substitution (with the `ensure_emoji_png` oracle), then either
large-file splitting/truncation or a single fenced block. -/
def process_code_file (cfg : CodeProcConfig)
    (ensurePng : Chars → Option Chars) (content : Chars)
    (file_extension relative_path : Chars) : Chars :=
  let hdr : Chars × Chars :=
    if cfg.render_header_comments_outside then
      extract_header_comment content file_extension
    else ([], content)
  let header_md : Chars :=
    if hdr.1 ≠ [] then
      pyStrip (replace_emoji_in_text ensurePng hdr.1 false) ++ chars "\n\n"
    else []
  let code_body := hard_wrap_lines cfg.max_line_length
    (process_long_lines hdr.2 MAX_LINE_LENGTH_DEFAULT)
  let code_transformed := replace_emoji_in_code ensurePng code_body
  let contains_emoji := strContains code_transformed (chars "\\emojiimg\x7b")
  let lang := code_lang file_extension
  let lines := splitlinesPy code_transformed
  if lines.length > MAX_LINES_BEFORE_SPLIT then
    if cfg.split_large_files then
      chars "\n\n# " ++ relative_path ++ chars "\n\n" ++ header_md ++
        split_large_file relative_path lines lang
    else
      format_code_output relative_path header_md
        (pyJoin ['\n'] (lines.take MAX_LINES_BEFORE_SPLIT) ++
          chars "\n\n... (文件太大，已截断)")
        lang contains_emoji
  else
    format_code_output relative_path header_md code_transformed lang
      contains_emoji

/-- Python `\w` (restricted to the ASCII alphanumerics and underscore
that appear in the embedded code's fence info strings). -/
def isWordChar (c : Char) : Bool := c.isAlphanum || c = '_'

/-- `s.lower()`. -/
def lowerStr (s : Chars) : Chars := s.map Char.toLower

/-- `path.startswith(("http://", "https://"))`. -/
def isRemoteUrl (p : Chars) : Bool :=
  (chars "http://").isPrefixOf p || (chars "https://").isPrefixOf p

/-- `path.lower().endswith(".svg")`. -/
def endsWithSvg (p : Chars) : Bool := (chars ".svg").isSuffixOf (lowerStr p)

/-- Case-insensitive literal prefix test (for the `re.IGNORECASE`
patterns). -/
def ciStarts (sub s : Chars) : Bool :=
  (lowerStr sub).isPrefixOf (lowerStr (s.take sub.length))

/-- The external-world oracles of `MarkdownProcessor`: the remote-image
downloader (`ImageConverter.download_remote_image`, `none` = failed
download), local-SVG conversion (`ImageConverter.convert_image_to_png`),
local path resolution (`_resolve_image_path` composed with the
`exists()` checks of its callers; `none` when the path cannot be
resolved, in particular always when `source_file`/`repo_root` are
`None`), BeautifulSoup's `src`/`alt` attribute extraction from an
`<img>` tag (`none` when the soup holds no `img`), SVG validation, and
`convert_svg_content_to_png` (`none` = conversion failure). -/
structure MdEnv where
  download : Chars → Option Chars
  imgToPng : Chars → Chars
  resolve : Chars → Option Chars
  imgAttrs : Chars → Option (Chars × Chars)
  valid_svg : Chars → Bool
  svgContentPng : Chars → Option Chars

/-- `f'![{alt}]({path} "{title}")'` when `title` is truthy, else
`f'![{alt}]({path})'`. -/
def mdImg (alt path title : Chars) : Chars :=
  if title ≠ [] then
    chars "![" ++ alt ++ chars "](" ++ path ++ chars " \"" ++ title ++
      chars "\")"
  else chars "![" ++ alt ++ chars "](" ++ path ++ chars ")"

/-- Matcher of `` ```(\w+)\s+title="([^"]+)" ``: three backticks, a word
run, a whitespace run, `title="`, a nonempty non-quote run, `"`; all
greedy runs are followed by characters outside their classes, so the
match is deterministic.  Returns length and the replacement `` ```\1 ``. -/
def cbTitleAt (s : Chars) : Option (Nat × Chars) :=
  match s with
  | '`' :: '`' :: '`' :: r =>
    let w := r.takeWhile isWordChar
    let r2 := r.drop w.length
    let ws := r2.takeWhile isPyWs
    let r3 := r2.drop ws.length
    if w ≠ [] ∧ ws ≠ [] ∧ (chars "title=\"").isPrefixOf r3 then
      let r4 := r3.drop 7
      let body := r4.takeWhile (fun c => c != '"')
      if body ≠ [] ∧ (r4.drop body.length).head? = some '"' then
        some (3 + w.length + ws.length + 7 + body.length + 1,
          chars "```" ++ w)
      else none
    else none
  | _ => none

/-- `MarkdownProcessor._remove_code_block_titles`. -/
def remove_code_block_titles (content : Chars) : Chars :=
  reSub cbTitleAt content

/-- Is the remainder at a `$` position of a `re.MULTILINE` pattern (end
of string or before a newline)? -/
def atLineEnd (s : Chars) : Bool :=
  match s with
  | [] => true
  | c :: _ => c = '\n'

/-- The lazy `(.*?)` of `"(.*?)"$` in a reference-link definition: scan
for a closing quote followed by a line end, extending the title over
quotes whose continuation fails; `.` never matches a newline. -/
def refTitleSearch (acc : Chars) : Chars → Option (Chars × Nat)
  | [] => none
  | c :: r =>
    if c = '"' ∧ atLineEnd r then some (acc.reverse, acc.length + 1)
    else if c = '\n' then none
    else refTitleSearch (c :: acc) r

/-- After the `(\S+)` url of a reference-link definition: the greedy
optional `(?:\s+"(.*?)")?` (tried first) and the final `$`.  Returns the
optional title group and the number of characters consumed. -/
def refAfterUrl (r : Chars) : Option (Option Chars × Nat) :=
  let ws := r.takeWhile isPyWs
  let withTitle : Option (Chars × Nat) :=
    if ws ≠ [] then
      match r.drop ws.length with
      | '"' :: r3 =>
        match refTitleSearch [] r3 with
        | some (t, n) => some (t, ws.length + 1 + n)
        | none => none
      | _ => none
    else none
  match withTitle with
  | some (t, n) => some (some t, n)
  | none => if atLineEnd r then some (none, 0) else none

/-- The lazy `(.*?)` of `^\[(.*?)\]:\s*(\S+)(?:\s+"(.*?)")?$`: at each
`]:` attempt the greedy whitespace run, the nonempty non-space url and
`refAfterUrl`; on failure extend the id (never over a newline).  Returns
id, url, optional title and characters consumed. -/
def refIdSearch (acc : Chars) : Chars → Option (Chars × Chars × Option Chars × Nat)
  | [] => none
  | c :: r =>
    let extend : Option (Chars × Chars × Option Chars × Nat) :=
      if c = '\n' then none else refIdSearch (c :: acc) r
    if c = ']' then
      match r with
      | ':' :: r2 =>
        let ws := r2.takeWhile isPyWs
        let r3 := r2.drop ws.length
        let url := r3.takeWhile (fun c2 => !isPyWs c2)
        if url = [] then extend
        else
          match refAfterUrl (r3.drop url.length) with
          | some (t, extra) =>
            some (acc.reverse, url, t,
              acc.length + 2 + ws.length + url.length + extra)
          | none => extend
      | _ => extend
    else extend

/-- One reference-link definition match anchored at a line start. -/
def refDefAt (s : Chars) : Option (Chars × Chars × Option Chars × Nat) :=
  match s with
  | '[' :: r =>
    match refIdSearch [] r with
    | some (rid, url, t, n) => some (rid, url, t, n + 1)
    | none => none
  | _ => none

/-- The `re.finditer` loop of `_extract_reference_links` over line-start
positions (`^` under `re.MULTILINE`). -/
def refDefsFuel : Nat → Bool → Chars → List (Chars × Chars × Option Chars)
  | 0, _, _ => []
  | _ + 1, _, [] => []
  | fuel + 1, atStart, c :: rest =>
    if atStart then
      match refDefAt (c :: rest) with
      | some (rid, url, t, n) =>
        (rid, url, t) :: refDefsFuel fuel false ((c :: rest).drop n)
      | none => refDefsFuel fuel (c = '\n') rest
    else refDefsFuel fuel (c = '\n') rest

/-- `MarkdownProcessor._extract_reference_links`: the matched
`(ref_id, url, title)` triples in order. -/
def extract_reference_links (content : Chars) : List (Chars × Chars × Option Chars) :=
  refDefsFuel content.length true content

/-- `reference_links[ref_id]` of the dict built by repeated assignment:
the last definition of an id wins. -/
def refLookup (refs : List (Chars × Chars × Option Chars)) (rid : Chars) :
    Option (Chars × Option Chars) :=
  match refs.reverse.find? (fun e => e.1 = rid) with
  | some e => some e.2
  | none => none

/-- `process_ref_image` of `_process_reference_images`: unknown ids stay
verbatim; remote urls are downloaded or the whole reference is dropped;
`.svg` urls go through the converter unconditionally; other urls resolve
to `images/<name>` or fall back to the original url. -/
def ref_image_replacement (env : MdEnv)
    (refs : List (Chars × Chars × Option Chars))
    (matched alt rid : Chars) : Chars :=
  match refLookup refs rid with
  | none => matched
  | some (url, t) =>
    let title := t.getD []
    if isRemoteUrl url then
      match env.download url with
      | some p => mdImg alt p title
      | none => []
    else if endsWithSvg url then
      mdImg alt (env.imgToPng url) title
    else
      match env.resolve url with
      | some ip => mdImg alt (chars "images/" ++ pathName ip) title
      | none => mdImg alt url title

/-- The lazy `(.*?)\]` closing a reference-image id: the first `]` wins
(nothing follows it in the pattern). -/
def refImgIdSearch (acc : Chars) : Chars → Option (Chars × Nat)
  | [] => none
  | c :: r =>
    if c = ']' then some (acc.reverse, acc.length + 1)
    else if c = '\n' then none
    else refImgIdSearch (c :: acc) r

/-- The lazy alt of `!\[(.*?)\]\[(.*?)\]`: at each `][` try the id
search; on failure extend the alt (never over a newline). -/
def refImgAltSearch (acc : Chars) : Chars → Option (Chars × Chars × Nat)
  | [] => none
  | c :: r =>
    let extend : Option (Chars × Chars × Nat) :=
      if c = '\n' then none else refImgAltSearch (c :: acc) r
    if c = ']' then
      match r with
      | '[' :: r2 =>
        match refImgIdSearch [] r2 with
        | some (rid, n) => some (acc.reverse, rid, acc.length + 2 + n)
        | none => extend
      | _ => extend
    else extend

/-- Matcher of `!\[(.*?)\]\[(.*?)\]` with its replacement. -/
def refImgAt (env : MdEnv) (refs : List (Chars × Chars × Option Chars))
    (s : Chars) : Option (Nat × Chars) :=
  match s with
  | '!' :: '[' :: r =>
    match refImgAltSearch [] r with
    | some (alt, rid, n) =>
      some (n + 2, ref_image_replacement env refs (s.take (n + 2)) alt rid)
    | none => none
  | _ => none

/-- `MarkdownProcessor._process_reference_images`. -/
def process_reference_images (env : MdEnv)
    (refs : List (Chars × Chars × Option Chars)) (content : Chars) : Chars :=
  reSub (refImgAt env refs) content

/-- `process_md_image` of `_process_inline_images` (`title = []` both
for the title-less pattern and for an empty matched title, which Python
treats as falsy): remote paths are downloaded or the image is dropped;
`.svg` paths convert when resolvable and otherwise fall through to the
local branch, which normalises resolvable images to `images/<name>` and
drops unresolvable ones.  The trailing `return match.group(0)` of the
source is unreachable (every remote path returns in the first branch and
every other path in the local branch). -/
def md_image_replacement (env : MdEnv) (alt path title : Chars) : Chars :=
  if isRemoteUrl path then
    match env.download path with
    | some p => mdImg alt p title
    | none => []
  else
    let localBranch : Chars :=
      match env.resolve path with
      | some ip => mdImg alt (chars "images/" ++ pathName ip) title
      | none => []
    if endsWithSvg path then
      match env.resolve path with
      | some ip => mdImg alt (env.imgToPng ip) title
      | none => localBranch
    else localBranch

/-- The lazy path of `!\[(.*?)\]\((.*?)\)`: the first `)` closes it. -/
def iinPathNT (acc : Chars) : Chars → Option (Chars × Nat)
  | [] => none
  | c :: r =>
    if c = ')' then some (acc.reverse, acc.length + 1)
    else if c = '\n' then none
    else iinPathNT (c :: acc) r

/-- The lazy alt of `!\[(.*?)\]\((.*?)\)`. -/
def iinAltNT (acc : Chars) : Chars → Option (Chars × Chars × Nat)
  | [] => none
  | c :: r =>
    let extend : Option (Chars × Chars × Nat) :=
      if c = '\n' then none else iinAltNT (c :: acc) r
    if c = ']' then
      match r with
      | '(' :: r2 =>
        match iinPathNT [] r2 with
        | some (p, n) => some (acc.reverse, p, acc.length + 2 + n)
        | none => extend
      | _ => extend
    else extend

/-- The lazy title of `"(.*?)"\)`: at each quote require `)` after it,
otherwise the quote joins the title. -/
def iinTitleClose (acc : Chars) : Chars → Option (Chars × Nat)
  | [] => none
  | c :: r =>
    if c = '"' ∧ r.head? = some ')' then some (acc.reverse, acc.length + 2)
    else if c = '\n' then none
    else iinTitleClose (c :: acc) r

/-- The lazy path of `!\[(.*?)\]\((.*?)\s+"(.*?)"\)`: at each position
try the greedy whitespace run (which, unlike `.`, may cross newlines),
the opening quote and the title search; on failure the character joins
the path (never a newline). -/
def iinPathWT (acc : Chars) : Chars → Option (Chars × Chars × Nat)
  | [] => none
  | c :: r =>
    let extend : Option (Chars × Chars × Nat) :=
      if c = '\n' then none else iinPathWT (c :: acc) r
    if isPyWs c then
      let ws := (c :: r).takeWhile isPyWs
      match (c :: r).drop ws.length with
      | '"' :: r3 =>
        match iinTitleClose [] r3 with
        | some (t, n) =>
          some (acc.reverse, t, acc.length + ws.length + 1 + n)
        | none => extend
      | _ => extend
    else extend

/-- The lazy alt of the titled inline-image pattern. -/
def iinAltWT (acc : Chars) : Chars → Option (Chars × Chars × Chars × Nat)
  | [] => none
  | c :: r =>
    let extend : Option (Chars × Chars × Chars × Nat) :=
      if c = '\n' then none else iinAltWT (c :: acc) r
    if c = ']' then
      match r with
      | '(' :: r2 =>
        match iinPathWT [] r2 with
        | some (p, t, n) => some (acc.reverse, p, t, acc.length + 2 + n)
        | none => extend
      | _ => extend
    else extend

/-- Matcher of `!\[(.*?)\]\((.*?)\s+"(.*?)"\)` with its replacement. -/
def inlineTitleAt (env : MdEnv) (s : Chars) : Option (Nat × Chars) :=
  match s with
  | '!' :: '[' :: r =>
    match iinAltWT [] r with
    | some (alt, p, t, n) =>
      some (n + 2, md_image_replacement env alt p t)
    | none => none
  | _ => none

/-- Matcher of `!\[(.*?)\]\((.*?)\)` with its replacement. -/
def inlineNoTitleAt (env : MdEnv) (s : Chars) : Option (Nat × Chars) :=
  match s with
  | '!' :: '[' :: r =>
    match iinAltNT [] r with
    | some (alt, p, n) =>
      some (n + 2, md_image_replacement env alt p [])
    | none => none
  | _ => none

/-- `MarkdownProcessor._process_inline_images`: the titled pattern is
substituted first, then the title-less one. -/
def process_inline_images (env : MdEnv) (content : Chars) : Chars :=
  reSub (inlineNoTitleAt env) (reSub (inlineTitleAt env) content)

/-- `process_html_image` of `_process_html_images`: tags BeautifulSoup
finds no `img` in stay verbatim; an empty `src` drops the tag; remote
sources download or drop; unresolvable local sources drop; resolvable
`.svg` sources convert; other resolvable sources normalise to
`images/<name>`. -/
def html_image_replacement (env : MdEnv) (tag : Chars) : Chars :=
  match env.imgAttrs tag with
  | none => tag
  | some (src, alt) =>
    if src = [] then []
    else if isRemoteUrl src then
      match env.download src with
      | some p => mdImg alt p []
      | none => []
    else
      match env.resolve src with
      | none => []
      | some resolved =>
        if lowerStr (pathSuffix resolved) = chars ".svg" then
          mdImg alt (env.imgToPng resolved) []
        else mdImg alt (chars "images/" ++ pathName resolved) []

/-- Matcher of `<img\s+[^>]+>` (`re.IGNORECASE`): after `<img`, the
maximal `>`-free run must start with whitespace (the `\s+`) and hold at
least one further character (the `[^>]+`, whose backtracking may absorb
trailing whitespace of the run), then `>`. -/
def htmlImgAt (env : MdEnv) (s : Chars) : Option (Nat × Chars) :=
  match s with
  | '<' :: c1 :: c2 :: c3 :: r =>
    if c1.toLower = 'i' ∧ c2.toLower = 'm' ∧ c3.toLower = 'g' then
      let t := r.takeWhile (fun c => c != '>')
      if 2 ≤ t.length ∧ (t.head?.map isPyWs).getD false then
        match r.drop t.length with
        | '>' :: _ =>
          some (4 + t.length + 1,
            html_image_replacement env (s.take (4 + t.length + 1)))
        | _ => none
      else none
    else none
  | _ => none

/-- `MarkdownProcessor._process_html_images`. -/
def process_html_images (env : MdEnv) (content : Chars) : Chars :=
  reSub (htmlImgAt env) content

/-- The lazy `.*?</svg>` under `re.DOTALL`/`re.IGNORECASE`: distance to
the first case-insensitive `</svg>`, inclusive. -/
def svgBodySearch (n : Nat) : Chars → Option Nat
  | [] => none
  | c :: r =>
    if ciStarts (chars "</svg>") (c :: r) then some (n + 6)
    else svgBodySearch (n + 1) r

/-- The lazy `\s*.*?>` then body of `<svg\s*.*?>.*?</svg>`: the first
`>` (whitespace never is one), then the body search; if no `</svg>`
follows the first `>`, none follows a later one either. -/
def svgGtSearch (n : Nat) : Chars → Option Nat
  | [] => none
  | c :: r =>
    if c = '>' then
      match svgBodySearch 0 r with
      | some m => some (n + 1 + m)
      | none => none
    else svgGtSearch (n + 1) r

/-- `process_svg` of `_process_inline_svg`: valid SVG converts to
`![](images/<png>)`; anything else stays verbatim. -/
def svg_replacement (env : MdEnv) (matched : Chars) : Chars :=
  if env.valid_svg matched then
    match env.svgContentPng matched with
    | some png => chars "![](images/" ++ png ++ chars ")"
    | none => matched
  else matched

/-- Matcher of `<svg\s*.*?>.*?</svg>` with its replacement. -/
def svgTagAt (env : MdEnv) (s : Chars) : Option (Nat × Chars) :=
  match s with
  | c0 :: c1 :: c2 :: c3 :: r =>
    if c0 = '<' ∧ c1.toLower = 's' ∧ c2.toLower = 'v' ∧ c3.toLower = 'g' then
      match svgGtSearch 0 r with
      | some n => some (4 + n, svg_replacement env (s.take (4 + n)))
      | none => none
    else none
  | _ => none

/-- `MarkdownProcessor._process_inline_svg`. -/
def process_inline_svg (env : MdEnv) (content : Chars) : Chars :=
  reSub (svgTagAt env) content

/-- The line loop of `MarkdownProcessor._hard_wrap_code_blocks`: outside
fenced blocks lines pass through; a fence line opens a block, skipped
entirely when its info string (stripped, lowered) contains `{=latex}`
or equals `latex`; inside a non-skipped block overlong lines are sliced
into `wrap_width`-sized chunks; a line starting with the opening fence
closes the block. -/
def hwcbLoop (m : Nat) : List Chars → Option (Chars × Bool) → List Chars
  | [], _ => []
  | ln :: rest, none =>
    match fenceOpenMatch ln with
    | some f =>
      let info := lowerStr (pyStrip (ln.drop f.length))
      let skip := strContains info (chars "\x7b=latex\x7d") ||
        info = chars "latex"
      ln :: hwcbLoop m rest (some (f, skip))
    | none => ln :: hwcbLoop m rest none
  | ln :: rest, some (fence, skip) =>
    if fence.isPrefixOf ln then ln :: hwcbLoop m rest none
    else if skip then ln :: hwcbLoop m rest (some (fence, skip))
    else hardWrapLine m ln :: hwcbLoop m rest (some (fence, skip))

/-- `MarkdownProcessor._hard_wrap_code_blocks`. -/
def hard_wrap_code_blocks (m : Nat) (content : Chars) : Chars :=
  pyJoin ['\n'] (hwcbLoop m (splitlinesPy content) none)

/-- `MarkdownProcessor._escape_yaml_delimiters`:
`re.sub(r"^---$", r"\---", content, flags=re.MULTILINE)` acts exactly on
the newline-separated lines equal to `---`. -/
def escape_yaml_delimiters (content : Chars) : Chars :=
  pyJoin ['\n'] ((splitOnCh '\n' content).map (fun l =>
    if l = chars "---" then chars "\\---" else l))

/-- Match length of the residual-image scrub pattern
`!\[[^\]]*\]\((https?://[^\s)]+)(\s+\"[^\"]*\")?\)` — note the alt
`[^\]]*`, unlike the inline pass's `(.*?)`, crosses newlines.  Every
greedy run is followed by a character outside its class, so matching is
deterministic; the greedy optional title group is tried first. -/
def scrubInlineLen (s : Chars) : Option Nat :=
  match s with
  | '!' :: '[' :: r =>
    let alt := r.takeWhile (fun c => c != ']')
    match r.drop alt.length with
    | ']' :: '(' :: r3 =>
      let proto : Option Nat :=
        if (chars "https://").isPrefixOf r3 then some 8
        else if (chars "http://").isPrefixOf r3 then some 7
        else none
      match proto with
      | none => none
      | some pn =>
        let r4 := r3.drop pn
        let url := r4.takeWhile (fun c => !isPyWs c && c != ')')
        if url = [] then none
        else
          let r5 := r4.drop url.length
          let ws := r5.takeWhile isPyWs
          let withTitle : Option Nat :=
            if ws ≠ [] then
              match r5.drop ws.length with
              | '"' :: r6 =>
                let tb := r6.takeWhile (fun c => c != '"')
                match r6.drop tb.length with
                | '"' :: ')' :: _ =>
                  some (ws.length + 1 + tb.length + 1 + 1)
                | _ => none
              | _ => none
            else none
          match withTitle with
          | some k => some (2 + alt.length + 2 + pn + url.length + k)
          | none =>
            match r5 with
            | ')' :: _ => some (2 + alt.length + 2 + pn + url.length + 1)
            | _ => none
    | _ => none
  | _ => none

/-- The continuation `src=\"https?://[^\"]+\"[^>]*>` of the HTML scrub
pattern (all literals case-insensitive under `re.IGNORECASE`). -/
def scrubHtmlCont (r : Chars) : Option Nat :=
  if ciStarts (chars "src=\"") r then
    let r2 := r.drop 5
    let proto : Option Nat :=
      if ciStarts (chars "https://") r2 then some 8
      else if ciStarts (chars "http://") r2 then some 7
      else none
    match proto with
    | none => none
    | some k =>
      let r3 := r2.drop k
      let u := r3.takeWhile (fun c => c != '"')
      if u = [] then none
      else
        match r3.drop u.length with
        | '"' :: r4 =>
          let tl := r4.takeWhile (fun c => c != '>')
          match r4.drop tl.length with
          | '>' :: _ => some (5 + k + u.length + 1 + tl.length + 1)
          | _ => none
        | _ => none
  else none

/-- The greedy `[^>]+` before `src=` of the HTML scrub pattern: try the
longest gap first, shrinking on failure. -/
def scrubHtmlGap : Nat → Chars → Option Nat
  | 0, _ => none
  | g + 1, r =>
    match scrubHtmlCont (r.drop (g + 1)) with
    | some m => some (g + 1 + m)
    | none => scrubHtmlGap g r

/-- Match length of `<img[^>]+src=\"https?://[^\"]+\"[^>]*>`
(`re.IGNORECASE`). -/
def scrubHtmlLen (s : Chars) : Option Nat :=
  match s with
  | c0 :: c1 :: c2 :: c3 :: r =>
    if c0 = '<' ∧ c1.toLower = 'i' ∧ c2.toLower = 'm' ∧ c3.toLower = 'g' then
      match scrubHtmlGap ((r.takeWhile (fun c => c != '>')).length) r with
      | some n => some (4 + n)
      | none => none
    else none
  | _ => none

/-- `MarkdownProcessor._remove_residual_remote_images`: delete remaining
Markdown remote images, then remaining HTML remote images.  Each `re.sub`
is a single left-to-right pass: text spliced together around a deleted
match is not rescanned. -/
def remove_residual_remote_images (content : Chars) : Chars :=
  reSub (fun s => (scrubHtmlLen s).map (fun n => (n, [])))
    (reSub (fun s => (scrubInlineLen s).map (fun n => (n, []))) content)

/-- `MarkdownProcessor.process_markdown_content`
(`processors/markdown_processor.py`): the nine passes in source order;
`m` is `config.pdf_settings.max_line_length`. -/
def process_markdown_content (env : MdEnv) (m : Nat) (content : Chars) : Chars :=
  let c1 := remove_code_block_titles content
  let refs := extract_reference_links c1
  let c2 := process_reference_images env refs c1
  let c3 := process_inline_images env c2
  let c4 := process_html_images env c3
  let c5 := process_inline_svg env c4
  let c6 := escape_backslash_u_sequences c5
  let c7 := hard_wrap_code_blocks m c6
  let c8 := escape_yaml_delimiters c7
  remove_residual_remote_images c8

-- ===== THEOREMS =====

theorem glob_dpFuel_complete (fuel : Nat) (S P : List Chars)
    (hfuel : S.length + P.length < fuel) (h : SpecAligns S P) :
    glob_dpFuel false fuel S P = true := by
  induction h generalizing fuel with
  | nil =>
    cases fuel with
    | zero => omega
    | succ f => simp [glob_dpFuel]
  | starZero h ih =>
    cases fuel with
    | zero => omega
    | succ f =>
      simp only [glob_dpFuel]
      rw [if_pos trivial]
      have := ih f (by simp at hfuel ⊢; omega)
      simp [this]
  | starMore h ih =>
    cases fuel with
    | zero => omega
    | succ f =>
      simp only [glob_dpFuel]
      rw [if_pos trivial]
      have := ih f (by simp at hfuel ⊢; omega)
      simp [this]
  | seg hne hm h ih =>
    cases fuel with
    | zero => omega
    | succ f =>
      simp only [glob_dpFuel]
      rw [if_neg hne]
      have := ih f (by simp at hfuel ⊢; omega)
      simp [this, hm]

/-- C3: for every glob pattern and path whose segment lists align in the
spec's sense (each `**` pattern segment absorbs zero or more whole path
segments, every other pattern segment shell-matches its aligned path
segment case-insensitively), `posix_glob_match` returns true; in
particular `a/**/c` matches `a/c`, `a/b/c` and `a/b/x/c`. -/
theorem C3_posix_glob_match_star :
    (∀ path pattern : Chars,
       SpecAligns (split_posix_parts path) (split_posix_parts pattern) →
       posix_glob_match path pattern = true) ∧
    posix_glob_match (chars "a/c") (chars "a/**/c") = true ∧
    posix_glob_match (chars "a/b/c") (chars "a/**/c") = true ∧
    posix_glob_match (chars "a/b/x/c") (chars "a/**/c") = true := by
  refine ⟨fun path pattern h => ?_, by decide, by decide, by decide⟩
  exact glob_dpFuel_complete _ _ _ (by omega) h

/-- Witness for C3: a concrete alignment derivation for `a/b/x/c` against
`a/**/c`, fed through the universal part of the theorem. -/
theorem C3_posix_glob_match_star_witness :
    SpecAligns (split_posix_parts (chars "a/b/x/c"))
      (split_posix_parts (chars "a/**/c")) ∧
    posix_glob_match (chars "a/b/x/c") (chars "a/**/c") = true := by
  have hpath : split_posix_parts (chars "a/b/x/c") =
      [chars "a", chars "b", chars "x", chars "c"] := by decide
  have hpat : split_posix_parts (chars "a/**/c") =
      [chars "a", chars "**", chars "c"] := by decide
  have halign : SpecAligns [chars "a", chars "b", chars "x", chars "c"]
      [chars "a", chars "**", chars "c"] := by
    refine SpecAligns.seg (by decide) (by decide) ?_
    refine SpecAligns.starMore (SpecAligns.starMore (SpecAligns.starZero ?_))
    exact SpecAligns.seg (by decide) (by decide) SpecAligns.nil
  have halign2 : SpecAligns (split_posix_parts (chars "a/b/x/c"))
      (split_posix_parts (chars "a/**/c")) := by
    rw [hpath, hpat]; exact halign
  exact ⟨halign2,
    C3_posix_glob_match_star.1 (chars "a/b/x/c") (chars "a/**/c") halign2⟩

theorem splitOnCh_ne_nil (sep : Char) (s : Chars) : splitOnCh sep s ≠ [] := by
  induction s with
  | nil => simp [splitOnCh]
  | cons c rest ih =>
    simp only [splitOnCh]
    split
    · simp
    · cases h : splitOnCh sep rest with
      | nil => simp
      | cons l ls => simp

theorem splitOnCh_no_sep (sep : Char) (l : Chars) (h : ∀ c ∈ l, c ≠ sep) :
    splitOnCh sep l = [l] := by
  induction l with
  | nil => simp [splitOnCh]
  | cons c rest ih =>
    have hc : c ≠ sep := h c (by simp)
    have hrest := ih (fun x hx => h x (by simp [hx]))
    simp [splitOnCh, hc, hrest]

theorem splitOnCh_cons_self (sep : Char) (rest : Chars) :
    splitOnCh sep (sep :: rest) = [] :: splitOnCh sep rest := by
  simp [splitOnCh]

theorem splitOnCh_cons_ne (sep c : Char) (rest : Chars) (hc : c ≠ sep) :
    splitOnCh sep (c :: rest) =
      match splitOnCh sep rest with
      | [] => [[c]]
      | l :: ls => (c :: l) :: ls := by
  simp [splitOnCh, hc]

theorem splitOnCh_append_sep (sep : Char) (x y : Chars) :
    splitOnCh sep (x ++ sep :: y) = splitOnCh sep x ++ splitOnCh sep y := by
  induction x with
  | nil => simp [splitOnCh]
  | cons c rest ih =>
    rw [List.cons_append]
    by_cases hc : c = sep
    · subst hc
      rw [splitOnCh_cons_self, splitOnCh_cons_self, ih, List.cons_append]
    · rw [splitOnCh_cons_ne _ _ _ hc, splitOnCh_cons_ne _ _ _ hc, ih]
      cases h : splitOnCh sep rest with
      | nil => exact absurd h (splitOnCh_ne_nil sep rest)
      | cons l ls => simp [h]

theorem splitOnCh_pyJoin (sep : Char) (L : List Chars) (hL : L ≠ []) :
    splitOnCh sep (pyJoin [sep] L) = (L.map (splitOnCh sep)).flatten := by
  induction L with
  | nil => exact absurd rfl hL
  | cons l ls ih =>
    cases ls with
    | nil => simp [pyJoin]
    | cons l2 ls2 =>
      have hstep : pyJoin [sep] (l :: l2 :: ls2) =
          l ++ sep :: pyJoin [sep] (l2 :: ls2) := by
        simp [pyJoin]
      rw [hstep, splitOnCh_append_sep, ih (by simp)]
      simp

theorem flatten_map_singleton (L : List Chars) :
    (L.map (fun x => [x])).flatten = L := by
  induction L with
  | nil => simp
  | cons l ls ih => simp [ih]

theorem dropTrailingEmpty_cons (a : Chars) (X : List Chars) (hX : X ≠ []) :
    dropTrailingEmpty (a :: X) = a :: dropTrailingEmpty X := by
  cases X with
  | nil => exact absurd rfl hX
  | cons b X2 =>
    unfold dropTrailingEmpty
    rw [List.getLast?_cons_cons]
    cases h : (b :: X2).getLast? with
    | none => simp at h
    | some l =>
      rcases l with _ | ⟨c, l2⟩
      · simp [List.dropLast_cons₂]
      · simp

theorem mem_dropTrailingEmpty {x : Chars} {X : List Chars}
    (hx : x ∈ X) (hne : x ≠ []) : x ∈ dropTrailingEmpty X := by
  unfold dropTrailingEmpty
  cases h : X.getLast? with
  | none => simpa using hx
  | some l =>
    rcases l with _ | ⟨c, l2⟩
    · simp only []
      have hXne : X ≠ [] := by
        intro h0; subst h0; simp at h
      have hgl : X.getLast hXne = [] := by
        rw [List.getLast?_eq_getLast X hXne] at h
        exact Option.some.inj h
      have hsplit : X.dropLast ++ [[]] = X := by
        conv_rhs => rw [← List.dropLast_append_getLast hXne]
        rw [hgl]
      rw [← hsplit] at hx
      rcases List.mem_append.mp hx with h1 | h1
      · exact h1
      · simp at h1; exact absurd h1 hne
    · simpa using hx

theorem mem_of_mem_dropTrailingEmpty {x : Chars} {X : List Chars}
    (hx : x ∈ dropTrailingEmpty X) : x ∈ X := by
  unfold dropTrailingEmpty at hx
  cases h : X.getLast? with
  | none => rw [h] at hx; exact hx
  | some l =>
    rw [h] at hx
    rcases l with _ | ⟨c, l2⟩
    · exact List.dropLast_subset _ hx
    · exact hx

theorem dropTrailingEmpty_of_getLast {X : List Chars}
    (h : X.getLast? ≠ some []) : dropTrailingEmpty X = X := by
  unfold dropTrailingEmpty
  cases hg : X.getLast? with
  | none => rfl
  | some l =>
    rcases l with _ | ⟨c, l2⟩
    · exact absurd hg h
    · rfl

theorem mem_splitlinesPy_lbFree {l : Chars} {s : Chars}
    (h : l ∈ splitlinesPy s) : lbFree l = true := by
  induction s using splitlinesPy.induct generalizing l with
  | case1 => simp [splitlinesPy] at h
  | case2 c hc =>
    rw [splitlinesPy, if_pos hc] at h
    simp at h
    subst h
    rfl
  | case3 c hc =>
    rw [splitlinesPy, if_neg hc] at h
    simp at h
    subst h
    simp [lbFree, hc]
  | case4 c d rest hlb hrn ih =>
    rw [splitlinesPy, if_pos hlb, if_pos hrn] at h
    rcases List.mem_cons.mp h with h1 | h1
    · subst h1; rfl
    · exact ih h1
  | case5 c d rest hlb hrn ih =>
    rw [splitlinesPy, if_pos hlb, if_neg hrn] at h
    rcases List.mem_cons.mp h with h1 | h1
    · subst h1; rfl
    · exact ih h1
  | case6 c d rest hlb heq ih =>
    rw [splitlinesPy, if_neg hlb, heq] at h
    simp at h
    subst h
    simp [lbFree, hlb]
  | case7 c d rest hlb l0 ls0 heq ih =>
    rw [splitlinesPy, if_neg hlb, heq] at h
    rcases List.mem_cons.mp h with h1 | h1
    · subst h1
      have hl0 : lbFree l0 = true := ih (by rw [heq]; simp)
      simp [lbFree] at hl0 ⊢
      exact ⟨by simpa using hlb, hl0⟩
    · exact ih (by rw [heq]; exact List.mem_cons_of_mem _ h1)

theorem splitlinesPy_eq_dropTrail {s : Chars} (h : nlOnly s = true) :
    splitlinesPy s = dropTrailingEmpty (splitOnCh '\n' s) := by
  induction s using splitlinesPy.induct with
  | case1 => simp [splitlinesPy, splitOnCh, dropTrailingEmpty]
  | case2 c hc =>
    have hcn : c = '\n' := by
      simp [nlOnly] at h
      rcases h with h1 | h1
      · exact h1
      · rw [hc] at h1; simp at h1
    subst hcn
    rw [splitlinesPy, if_pos hc, splitOnCh_cons_self]
    simp [splitOnCh, dropTrailingEmpty]
  | case3 c hc =>
    have hcn : c ≠ '\n' := by
      intro h0; subst h0; simp [isLineBreak] at hc
    rw [splitlinesPy, if_neg hc, splitOnCh_cons_ne _ _ _ hcn]
    simp [splitOnCh, dropTrailingEmpty]
  | case4 c d rest hlb hrn =>
    exfalso
    obtain ⟨hcr, -⟩ := hrn
    subst hcr
    simp [nlOnly, isLineBreak] at h
  | case5 c d rest hlb hrn ih =>
    have hcn : c = '\n' := by
      simp [nlOnly] at h
      obtain ⟨h1, -⟩ := h
      rcases h1 with h1 | h1
      · exact h1
      · rw [hlb] at h1; simp at h1
    subst hcn
    have htail : nlOnly (d :: rest) = true := by
      simp [nlOnly] at h ⊢
      tauto
    rw [splitlinesPy, if_pos hlb, if_neg hrn, ih htail, splitOnCh_cons_self,
      dropTrailingEmpty_cons _ _ (splitOnCh_ne_nil _ _)]
  | case6 c d rest hlb heq ih =>
    have htail : nlOnly (d :: rest) = true := by
      simp [nlOnly] at h ⊢
      tauto
    have hcn : c ≠ '\n' := by
      intro h0; subst h0; simp [isLineBreak] at hlb
    rw [splitlinesPy, if_neg hlb, heq, splitOnCh_cons_ne _ _ _ hcn]
    have hih := ih htail
    rw [heq] at hih
    cases hsp : splitOnCh '\n' (d :: rest) with
    | nil => exact absurd hsp (splitOnCh_ne_nil _ _)
    | cons l0 ls0 =>
      rw [hsp] at hih
      cases ls0 with
      | nil =>
        have hl0 : l0 = [] := by
          by_contra hne
          rw [dropTrailingEmpty_of_getLast (by simp [hne])] at hih
          exact (List.cons_ne_nil _ _) hih.symm
        subst hl0
        simp [dropTrailingEmpty]
      | cons b ls1 =>
        exfalso
        rw [dropTrailingEmpty_cons _ _ (by simp)] at hih
        exact (List.cons_ne_nil _ _) hih.symm
  | case7 c d rest hlb l0 ls0 heq ih =>
    have htail : nlOnly (d :: rest) = true := by
      simp [nlOnly] at h ⊢
      tauto
    have hcn : c ≠ '\n' := by
      intro h0; subst h0; simp [isLineBreak] at hlb
    rw [splitlinesPy, if_neg hlb, heq, splitOnCh_cons_ne _ _ _ hcn]
    have hih := ih htail
    rw [heq] at hih
    cases hsp : splitOnCh '\n' (d :: rest) with
    | nil => exact absurd hsp (splitOnCh_ne_nil _ _)
    | cons l1 ls1 =>
      rw [hsp] at hih
      cases ls1 with
      | nil =>
        have hl1 : l1 ≠ [] := by
          intro h0; subst h0
          simp [dropTrailingEmpty] at hih
        rw [dropTrailingEmpty_of_getLast (by simp [hl1])] at hih
        rw [dropTrailingEmpty_of_getLast (by simp)]
        obtain ⟨h1, h2⟩ : l0 = l1 ∧ ls0 = [] := by
          have h3 := hih
          simp at h3
          exact ⟨h3.1, h3.2⟩
        subst h1; subst h2
        rfl
      | cons b ls2 =>
        rw [dropTrailingEmpty_cons _ _ (by simp)] at hih
        rw [dropTrailingEmpty_cons _ _ (by simp)]
        obtain ⟨h1, h2⟩ : l0 = l1 ∧ ls0 = dropTrailingEmpty (b :: ls2) := by
          have h3 := hih
          simp at h3
          exact ⟨h3.1, h3.2⟩
        subst h1; subst h2
        rfl

theorem nlOnly_of_lbFree {s : Chars} (h : lbFree s = true) : nlOnly s = true := by
  simp [lbFree, nlOnly, List.all_eq_true] at h ⊢
  intro c hc
  simp [h c hc]

theorem nlOnly_pyJoin {L : List Chars} (h : ∀ e ∈ L, nlOnly e = true) :
    nlOnly (pyJoin ['\n'] L) = true := by
  induction L with
  | nil => rfl
  | cons l ls ih =>
    cases ls with
    | nil => exact h l (by simp)
    | cons l2 ls2 =>
      have hstep : pyJoin ['\n'] (l :: l2 :: ls2) =
          l ++ '\n' :: pyJoin ['\n'] (l2 :: ls2) := by
        simp [pyJoin]
      rw [hstep]
      have h1 := h l (by simp)
      have h2 := ih (fun e he => h e (by simp [he]))
      unfold nlOnly at h1 h2 ⊢
      rw [List.all_append, h1, List.all_cons, h2]
      simp [isLineBreak]

theorem splitlinesPy_pyJoin (L : List Chars) (h : ∀ e ∈ L, nlOnly e = true) :
    splitlinesPy (pyJoin ['\n'] L) =
      dropTrailingEmpty ((L.map (splitOnCh '\n')).flatten) := by
  cases L with
  | nil => simp [pyJoin, splitlinesPy, dropTrailingEmpty]
  | cons l ls =>
    rw [splitlinesPy_eq_dropTrail (nlOnly_pyJoin h),
      splitOnCh_pyJoin _ _ (by simp)]

theorem splitlinesPy_pyJoin_id (L : List Chars) (hL : L ≠ [])
    (h : ∀ e ∈ L, lbFree e = true) (hlast : L.getLast? ≠ some []) :
    splitlinesPy (pyJoin ['\n'] L) = L := by
  rw [splitlinesPy_pyJoin L (fun e he => nlOnly_of_lbFree (h e he))]
  have hmap : L.map (splitOnCh '\n') = L.map (fun x => [x]) := by
    refine List.map_congr_left (fun e he => ?_)
    refine splitOnCh_no_sep _ _ (fun c hc h0 => ?_)
    have := h e he
    simp [lbFree, List.all_eq_true] at this
    have := this c hc
    subst h0
    simp [isLineBreak] at this
  rw [hmap, flatten_map_singleton, dropTrailingEmpty_of_getLast hlast]

theorem strContains_of_infix {sub s : Chars} (h : sub <:+: s) :
    strContains s sub = true := by
  induction s with
  | nil =>
    have : sub = [] := by simpa using h
    subst this
    rfl
  | cons c rest ih =>
    rcases List.infix_cons_iff.mp h with h1 | h1
    · have := List.isPrefixOf_iff_prefix.mpr h1
      simp [strContains, this]
    · have := ih h1
      by_cases hp : sub.isPrefixOf (c :: rest) <;> simp [strContains, hp, this]

theorem infix_pyJoin_of_mem {e : Chars} {L : List Chars} (sep : Chars)
    (h : e ∈ L) : e <:+: pyJoin sep L := by
  induction L with
  | nil => simp at h
  | cons l ls ih =>
    rcases List.mem_cons.mp h with h1 | h1
    · subst h1
      cases ls with
      | nil => simp [pyJoin]
      | cons l2 ls2 =>
        exact ⟨[], sep ++ pyJoin sep (l2 :: ls2), by simp [pyJoin]⟩
    · cases ls with
      | nil => simp at h1
      | cons l2 ls2 =>
        obtain ⟨u, v, huv⟩ := ih h1
        refine ⟨l ++ sep ++ u, v, ?_⟩
        show l ++ sep ++ u ++ e ++ v = pyJoin sep (l :: l2 :: ls2)
        have : pyJoin sep (l :: l2 :: ls2) = l ++ sep ++ pyJoin sep (l2 :: ls2) := rfl
        rw [this, ← huv]
        simp [List.append_assoc]

theorem mem_chunksOfFuel {x : Chars} (fuel w : Nat) (l : Chars)
    (hx : x ∈ chunksOfFuel fuel w l) :
    x.length ≤ w ∧ ∀ p : Char → Bool, l.all p = true → x.all p = true := by
  induction fuel generalizing l with
  | zero => simp [chunksOfFuel] at hx
  | succ f ih =>
    rw [chunksOfFuel] at hx
    by_cases he : l.isEmpty
    · simp [he] at hx
    · rw [if_neg he] at hx
      rcases List.mem_cons.mp hx with h1 | h1
      · subst h1
        refine ⟨by simp, fun p hp => ?_⟩
        rw [List.all_eq_true] at hp ⊢
        exact fun c hc => hp c (List.take_subset _ _ hc)
      · obtain ⟨hle, hall⟩ := ih (l.drop w) h1
        refine ⟨hle, fun p hp => ?_⟩
        refine hall p ?_
        rw [List.all_eq_true] at hp ⊢
        exact fun c hc => hp c (List.drop_subset _ _ hc)

theorem chunksOf_ne_nil {w : Nat} {l : Chars} (hl : l ≠ []) :
    chunksOf w l ≠ [] := by
  unfold chunksOf
  cases l with
  | nil => exact absurd rfl hl
  | cons c rest =>
    rw [show (c :: rest).length = rest.length + 1 from rfl, chunksOfFuel]
    simp

theorem wrap_width_le (m : Nat) (h : 40 ≤ m) : wrap_width m ≤ max 40 m := by
  have h1 : m * 3 / 4 ≤ m := by omega
  exact max_le_max (le_refl 40) ((min_le_right _ _).trans h1)

theorem splitOnCh_hardWrapLine (m : Nat) (l : Chars) (hl : lbFree l = true) :
    splitOnCh '\n' (hardWrapLine m l) =
      if l.length > hard_wrap_threshold m then chunksOf (wrap_width m) l
      else [l] := by
  have hnonl : ∀ c ∈ l, c ≠ '\n' := by
    intro c hc h0
    simp [lbFree, List.all_eq_true] at hl
    have := hl c hc
    subst h0
    simp [isLineBreak] at this
  unfold hardWrapLine
  split
  · rename_i hgt
    have hlne : l ≠ [] := by
      intro h0; subst h0
      simp [hard_wrap_threshold] at hgt
    rw [splitOnCh_pyJoin _ _ (chunksOf_ne_nil hlne)]
    have hmap : (chunksOf (wrap_width m) l).map (splitOnCh '\n') =
        (chunksOf (wrap_width m) l).map (fun x => [x]) := by
      refine List.map_congr_left (fun x hx => ?_)
      refine splitOnCh_no_sep _ _ (fun c hc => ?_)
      obtain ⟨-, hall⟩ := mem_chunksOfFuel _ _ _ hx
      have := hall (fun c => !isLineBreak c) (by simpa [lbFree] using hl)
      simp [List.all_eq_true] at this
      intro h0
      have := this c hc
      subst h0
      simp [isLineBreak] at this
    rw [hmap, flatten_map_singleton]
  · exact splitOnCh_no_sep _ _ hnonl

/-- C10: for every content string and configured maximum line length `m`
between 40 and 500, every line of `_hard_wrap_lines`' output has length
at most `max 40 m`, and every input line already at most that long
appears in the output unchanged (as a substring, and as one of the
output's lines whenever it is nonempty). -/
theorem C10_hard_wrap_lines_bound (content : Chars) (m : Nat)
    (h40 : 40 ≤ m) (h500 : m ≤ 500) :
    (∀ l ∈ splitlinesPy (hard_wrap_lines m content), l.length ≤ max 40 m) ∧
    (∀ l ∈ splitlinesPy content, l.length ≤ max 40 m →
      strContains (hard_wrap_lines m content) l = true ∧
      (l ≠ [] → l ∈ splitlinesPy (hard_wrap_lines m content))) := by
  have hlb : ∀ l ∈ splitlinesPy content, lbFree l = true :=
    fun l hl => mem_splitlinesPy_lbFree hl
  have hnl : ∀ e ∈ (splitlinesPy content).map (hardWrapLine m), nlOnly e = true := by
    intro e he
    obtain ⟨l, hlmem, rfl⟩ := List.mem_map.mp he
    unfold hardWrapLine
    split
    · refine nlOnly_pyJoin (fun x hx => ?_)
      obtain ⟨-, hall⟩ := mem_chunksOfFuel _ _ _ hx
      exact nlOnly_of_lbFree (by
        simpa [lbFree] using hall (fun c => !isLineBreak c)
          (by simpa [lbFree] using hlb l hlmem))
    · exact nlOnly_of_lbFree (hlb l hlmem)
  have hkey : splitlinesPy (hard_wrap_lines m content) =
      dropTrailingEmpty
        ((((splitlinesPy content).map (hardWrapLine m)).map
          (splitOnCh '\n')).flatten) := by
    unfold hard_wrap_lines
    exact splitlinesPy_pyJoin _ hnl
  have hmap : ((splitlinesPy content).map (hardWrapLine m)).map (splitOnCh '\n') =
      (splitlinesPy content).map
        (fun l => if l.length > hard_wrap_threshold m
          then chunksOf (wrap_width m) l else [l]) := by
    rw [List.map_map]
    exact List.map_congr_left
      (fun l hl => splitOnCh_hardWrapLine m l (hlb l hl))
  constructor
  · intro x hx
    rw [hkey, hmap] at hx
    have hx2 := mem_of_mem_dropTrailingEmpty hx
    obtain ⟨S, hS, hxS⟩ := List.mem_flatten.mp hx2
    obtain ⟨l, hlmem, rfl⟩ := List.mem_map.mp hS
    by_cases hgt : l.length > hard_wrap_threshold m
    · rw [if_pos hgt] at hxS
      obtain ⟨hle, -⟩ := mem_chunksOfFuel _ _ _ hxS
      exact hle.trans (wrap_width_le m h40)
    · rw [if_neg hgt] at hxS
      simp at hxS
      subst hxS
      simpa [hard_wrap_threshold] using Nat.le_of_not_lt hgt
  · intro l hlmem hlen
    have hid : hardWrapLine m l = l := by
      unfold hardWrapLine
      rw [if_neg (by simpa [hard_wrap_threshold] using Nat.not_lt.mpr hlen)]
    constructor
    · refine strContains_of_infix ?_
      have : l ∈ (splitlinesPy content).map (hardWrapLine m) := by
        rw [← hid]
        exact List.mem_map_of_mem _ hlmem
      exact infix_pyJoin_of_mem _ this
    · intro hne
      rw [hkey, hmap]
      refine mem_dropTrailingEmpty ?_ hne
      refine List.mem_flatten.mpr ⟨[l], ?_, by simp⟩
      have h2 : (if l.length > hard_wrap_threshold m
          then chunksOf (wrap_width m) l else [l]) = [l] :=
        if_neg (by simpa [hard_wrap_threshold] using Nat.not_lt.mpr hlen)
      rw [← h2]
      exact List.mem_map_of_mem _ hlmem

/-- Witness for C10: a concrete content/configuration instance. -/
theorem C10_hard_wrap_lines_bound_witness :
    (∀ l ∈ splitlinesPy (hard_wrap_lines 40 (chars "ab\ncd")),
      l.length ≤ max 40 40) ∧
    (∀ l ∈ splitlinesPy (chars "ab\ncd"), l.length ≤ max 40 40 →
      strContains (hard_wrap_lines 40 (chars "ab\ncd")) l = true ∧
      (l ≠ [] → l ∈ splitlinesPy (hard_wrap_lines 40 (chars "ab\ncd")))) :=
  C10_hard_wrap_lines_bound (chars "ab\ncd") 40 (by decide) (by decide)

theorem escLoop_prose (pre X : List Chars)
    (hpre : ∀ l ∈ pre, fenceOpenMatch l = none) :
    escLoop (pre ++ X) none = pre ++ escLoop X none := by
  induction pre with
  | nil => rfl
  | cons p ps ih =>
    have hp : fenceOpenMatch p = none := hpre p (by simp)
    have hrest := ih (fun l hl => hpre l (by simp [hl]))
    simp only [List.cons_append, escLoop, hp]
    exact congrArg (List.cons p) hrest

theorem escLoop_code (code post : List Chars)
    (hcode : ∀ l ∈ code, ¬ (chars "```").isPrefixOf l) :
    escLoop (code ++ chars "```" :: post) (some (chars "```")) =
      code.map doubleBackslashes ++ chars "```" :: escLoop post none := by
  induction code with
  | nil =>
    simp only [List.nil_append, escLoop, List.map_nil]
    rw [if_pos (by decide), if_pos (by decide)]
  | cons c cs ih =>
    have hc : ¬ (chars "```").isPrefixOf c := hcode c (by simp)
    have hrest := ih (fun l hl => hcode l (by simp [hl]))
    simp only [List.cons_append, escLoop, List.map_cons]
    rw [if_neg hc]
    exact congrArg (List.cons (doubleBackslashes c)) hrest

/-- Counterexample for C6: the escaping step alters text inside a fenced
code region (doubling its backslash, contradicting "not altered"), and
leaves a literal `A` outside any fence unchanged (contradicting
"escapes such sequences outside fenced code regions"). -/
theorem C6_escape_counterexample :
    escape_backslash_u_sequences (chars "```\n\\u0041\n```") ≠
      chars "```\n\\u0041\n```" ∧
    escape_backslash_u_sequences (chars "\\u0041") = chars "\\u0041" := by
  constructor
  · decide
  · decide

/-- C6 (amended): the pass named `_escape_backslash_u_sequences` doubles
every backslash on lines inside a fenced code region and leaves all text
outside fenced regions unchanged: for any prose prefix (no fence
openers), fenced body (no line starting with the ``` fence) and prose
suffix, the output is the same document with exactly the fenced body's
backslashes doubled. -/
theorem C6_escape_backslash_in_code (pre code post : List Chars)
    (hpre : ∀ l ∈ pre, fenceOpenMatch l = none)
    (hpost : ∀ l ∈ post, fenceOpenMatch l = none)
    (hcode : ∀ l ∈ code, ¬ (chars "```").isPrefixOf l)
    (hlb : ∀ l ∈ pre ++ chars "```" :: (code ++ chars "```" :: post),
      lbFree l = true)
    (hlast : post.getLast? ≠ some []) :
    escape_backslash_u_sequences
        (pyJoin ['\n'] (pre ++ chars "```" :: (code ++ chars "```" :: post))) =
      pyJoin ['\n']
        (pre ++ chars "```" ::
          (code.map doubleBackslashes ++ chars "```" :: post)) := by
  unfold escape_backslash_u_sequences
  have hsplit : splitlinesPy
      (pyJoin ['\n'] (pre ++ chars "```" :: (code ++ chars "```" :: post))) =
      pre ++ chars "```" :: (code ++ chars "```" :: post) := by
    refine splitlinesPy_pyJoin_id _ (by simp) hlb ?_
    have hassoc : pre ++ chars "```" :: (code ++ chars "```" :: post) =
        (pre ++ chars "```" :: code) ++ (chars "```" :: post) := by simp
    rw [hassoc, List.getLast?_append_of_ne_nil _ (by simp)]
    cases post with
    | nil => simp [chars]
    | cons q qs =>
      rw [show chars "```" :: q :: qs = [chars "```"] ++ (q :: qs) from rfl,
        List.getLast?_append_of_ne_nil _ (by simp)]
      exact hlast
  rw [hsplit, escLoop_prose pre _ hpre]
  have hopen : fenceOpenMatch (chars "```") = some (chars "```") := by decide
  simp only [escLoop, hopen]
  rw [escLoop_code code post hcode]
  have hpostid : escLoop post none = post := by
    have h0 := escLoop_prose post [] hpost
    rw [List.append_nil] at h0
    simpa [escLoop] using h0
  rw [hpostid]

/-- Witness for C6 (amended): a concrete document with one fenced block;
the fenced line's backslash is doubled, prose lines are untouched. -/
theorem C6_escape_backslash_in_code_witness :
    escape_backslash_u_sequences
        (pyJoin ['\n'] ([chars "intro"] ++ chars "```" ::
          ([chars "a\\b"] ++ chars "```" :: [chars "outro \\u0041"]))) =
      pyJoin ['\n'] ([chars "intro"] ++ chars "```" ::
        ([chars "a\\b"].map doubleBackslashes ++ chars "```" ::
          [chars "outro \\u0041"])) :=
  C6_escape_backslash_in_code [chars "intro"] [chars "a\\b"]
    [chars "outro \\u0041"] (by decide) (by decide) (by decide) (by decide)
    (by decide)

theorem reSubFuel_id (matchAt : Chars → Option (Nat × Chars))
    (h : ∀ s n r, matchAt s = some (n, r) → r = s.take n) :
    ∀ (fuel : Nat) (s : Chars), reSubFuel matchAt fuel s = s := by
  intro fuel
  induction fuel with
  | zero => intro s; rfl
  | succ f ih =>
    intro s
    cases s with
    | nil => rfl
    | cons c rest =>
      cases hm : matchAt (c :: rest) with
      | none => rw [reSubFuel, hm, ih]
      | some pr =>
        obtain ⟨n, r⟩ := pr
        have hr := h _ _ _ hm
        simp only [reSubFuel, hm]
        by_cases hn : n = 0
        · rw [if_pos hn, ih]
        · rw [if_neg hn, ih, hr, List.take_append_drop]

theorem reScanFuel_nil (matchAt : Chars → Option Nat) (fuel : Nat) :
    reScanFuel matchAt fuel [] = [] := by
  cases fuel <;> rfl

theorem reScan_full_match (matchAt : Chars → Option Nat) (s : Chars)
    (hne : s ≠ []) (hm : matchAt s = some s.length) :
    reScan matchAt s = [s] := by
  cases s with
  | nil => exact absurd rfl hne
  | cons c rest =>
    unfold reScan
    rw [show (c :: rest).length = rest.length + 1 from rfl]
    simp only [reScanFuel, hm]
    rw [if_neg (by simp)]
    rw [List.take_length, List.drop_length, reScanFuel_nil]

theorem emojiZwjLoopLen_conts (conts : List (Char × Bool))
    (h : ∀ bc ∈ conts, inEmojiRange bc.1 = true) :
    emojiZwjLoopLen
        ((conts.map (fun bc =>
          zwjChar :: bc.1 :: (if bc.2 then [vs16Char] else []))).flatten) =
      ((conts.map (fun bc =>
        zwjChar :: bc.1 :: (if bc.2 then [vs16Char] else []))).flatten).length := by
  induction conts with
  | nil => rfl
  | cons bc rest ih =>
    obtain ⟨b, vb⟩ := bc
    have hb : inEmojiRange b = true := h (b, vb) (by simp)
    have hrest := ih (fun x hx => h x (by simp [hx]))
    have hhead : (rest.map (fun bc =>
        zwjChar :: bc.1 :: (if bc.2 then [vs16Char] else []))).flatten = [] ∨
        ∃ t, (rest.map (fun bc =>
          zwjChar :: bc.1 :: (if bc.2 then [vs16Char] else []))).flatten =
            zwjChar :: t := by
      cases rest with
      | nil => exact Or.inl rfl
      | cons bc2 rest2 =>
        exact Or.inr ⟨_, by rw [List.map_cons, List.flatten_cons]; rfl⟩
    have hexp : ((((b, vb) :: rest).map (fun bc =>
        zwjChar :: bc.1 :: (if bc.2 then [vs16Char] else []))).flatten) =
        zwjChar :: b :: ((if vb then [vs16Char] else []) ++
          (rest.map (fun bc =>
            zwjChar :: bc.1 :: (if bc.2 then [vs16Char] else []))).flatten) := by
      rw [List.map_cons, List.flatten_cons]
      rfl
    rw [hexp]
    cases vb with
    | true =>
      rw [show (if (true : Bool) then [vs16Char] else []) ++
          (rest.map (fun bc =>
            zwjChar :: bc.1 :: (if bc.2 then [vs16Char] else []))).flatten =
          vs16Char :: (rest.map (fun bc =>
            zwjChar :: bc.1 :: (if bc.2 then [vs16Char] else []))).flatten
        from rfl]
      rw [emojiZwjLoopLen, if_pos (by simp [hb])]
      simp only []
      rw [if_pos trivial, hrest]
      simp
      omega
    | false =>
      rw [show (if (false : Bool) then [vs16Char] else []) ++
          (rest.map (fun bc =>
            zwjChar :: bc.1 :: (if bc.2 then [vs16Char] else []))).flatten =
          (rest.map (fun bc =>
            zwjChar :: bc.1 :: (if bc.2 then [vs16Char] else []))).flatten
        from rfl]
      rcases hhead with hh | ⟨t, hh⟩
      · rw [hh, emojiZwjLoopLen, if_pos (by simp [hb])]
        rfl
      · rw [hh, emojiZwjLoopLen, if_pos (by simp [hb])]
        show (if zwjChar = vs16Char then 3 + emojiZwjLoopLen t
          else 2 + emojiZwjLoopLen (zwjChar :: t)) =
          (zwjChar :: b :: zwjChar :: t).length
        rw [if_neg (by decide), ← hh, hrest]
        simp
        omega

theorem emojiMatchLen_composite (base : Char) (v : Bool)
    (conts : List (Char × Bool)) (hbase : inEmojiRange base = true)
    (hconts : ∀ bc ∈ conts, inEmojiRange bc.1 = true) :
    emojiMatchLen (compositeEmoji base v conts) =
      some ((compositeEmoji base v conts).length) := by
  have hloop := emojiZwjLoopLen_conts conts hconts
  have hhead : (conts.map (fun bc =>
      zwjChar :: bc.1 :: (if bc.2 then [vs16Char] else []))).flatten = [] ∨
      ∃ t, (conts.map (fun bc =>
        zwjChar :: bc.1 :: (if bc.2 then [vs16Char] else []))).flatten =
          zwjChar :: t := by
    cases conts with
    | nil => exact Or.inl rfl
    | cons bc2 rest2 =>
      exact Or.inr ⟨_, by rw [List.map_cons, List.flatten_cons]; rfl⟩
  unfold compositeEmoji
  cases v with
  | true =>
    rw [show (if (true : Bool) then [vs16Char] else []) ++
        (conts.map (fun bc =>
          zwjChar :: bc.1 :: (if bc.2 then [vs16Char] else []))).flatten =
        vs16Char :: (conts.map (fun bc =>
          zwjChar :: bc.1 :: (if bc.2 then [vs16Char] else []))).flatten
      from rfl]
    rw [emojiMatchLen]
    rw [if_pos hbase]
    simp only []
    rw [if_pos trivial, hloop]
    simp
    omega
  | false =>
    rw [show (if (false : Bool) then [vs16Char] else []) ++
        (conts.map (fun bc =>
          zwjChar :: bc.1 :: (if bc.2 then [vs16Char] else []))).flatten =
        (conts.map (fun bc =>
          zwjChar :: bc.1 :: (if bc.2 then [vs16Char] else []))).flatten
      from rfl]
    rcases hhead with hh | ⟨t, hh⟩
    · rw [hh, emojiMatchLen, if_pos hbase]
      rfl
    · rw [hh, emojiMatchLen]
      rw [if_pos hbase]
      show (if zwjChar = vs16Char then some (2 + emojiZwjLoopLen t)
        else some (1 + emojiZwjLoopLen (zwjChar :: t))) =
        some ((base :: zwjChar :: t).length)
      rw [if_neg (by decide), ← hh, hloop]
      simp
      omega

/-- C8: for every zero-width-joiner composite emoji (a base emoji code
point, optional VS16, and one or more ZWJ-joined continuation emoji each
with optional VS16), the compiled emoji pattern detects the whole
composite as a single match span, not as several single-code-point
matches. -/
theorem C8_emoji_composite_one_span (base : Char) (v : Bool)
    (conts : List (Char × Bool)) (hbase : inEmojiRange base = true)
    (hconts : ∀ bc ∈ conts, inEmojiRange bc.1 = true) :
    emojiMatchSpans (compositeEmoji base v conts) =
      [compositeEmoji base v conts] :=
  reScan_full_match _ _ (by simp [compositeEmoji])
    (emojiMatchLen_composite base v conts hbase hconts)

/-- Witness for C8: the family composite `man ZWJ woman ZWJ girl` is one
span. -/
theorem C8_emoji_composite_one_span_witness :
    (inEmojiRange '👨' = true ∧
      ∀ bc ∈ [('👩', false), ('👧', false)], inEmojiRange bc.1 = true) ∧
    emojiMatchSpans (compositeEmoji '👨' false [('👩', false), ('👧', false)]) =
      [compositeEmoji '👨' false [('👩', false), ('👧', false)]] :=
  ⟨⟨by decide, by decide⟩,
    C8_emoji_composite_one_span '👨' false [('👩', false), ('👧', false)]
      (by decide) (by decide)⟩

/-- Counterexample for C7: for a resolvable emoji, the code-context and
the prose-context replacement emit the *same* `\emojiimg{...}` directive
syntax, contradicting the claimed difference between contexts. -/
theorem C7_emoji_directive_counterexample :
    replace_emoji_in_code
        (fun seq => if seq = chars "1f44d" then some (chars "1f44d.png") else none)
        (chars "👍") =
      chars "\\emojiimg\x7b1f44d.png\x7d" ∧
    replace_emoji_in_text
        (fun seq => if seq = chars "1f44d" then some (chars "1f44d.png") else none)
        (chars "👍") false =
      chars "\\emojiimg\x7b1f44d.png\x7d" :=
  ⟨by decide, by decide⟩

/-- C7 (amended): emoji replacement uses one and the same standard
`\emojiimg{filename}` directive in both contexts — the code-context entry
point delegates to the text replacement with an `in_code` flag the body
never reads — and unresolvable emoji are left as literal Unicode text in
every context. -/
theorem C7_emoji_replacement_uniform :
    (∀ (ensurePng : Chars → Option Chars) (text : Chars),
      replace_emoji_in_code ensurePng text =
        replace_emoji_in_text ensurePng text false) ∧
    (∀ (ensurePng : Chars → Option Chars) (text : Chars) (in_code : Bool),
      (∀ seq, ensurePng seq = none) →
      replace_emoji_in_text ensurePng text in_code = text) := by
  constructor
  · intro e t
    rfl
  · intro e t ic h
    unfold replace_emoji_in_text reSub
    refine reSubFuel_id _ (fun s n r hm => ?_) _ _
    unfold emojiMatcher at hm
    cases hl : emojiMatchLen s with
    | none => rw [hl] at hm; simp at hm
    | some n0 =>
      rw [hl] at hm
      have hm2 : (n0, emojiReplacement e (s.take n0)) = (n, r) :=
        Option.some.inj hm
      have h1 : n0 = n := congrArg Prod.fst hm2
      have h2 : emojiReplacement e (s.take n0) = r :=
        congrArg Prod.snd hm2
      subst h1
      rw [← h2]
      unfold emojiReplacement
      rw [h]

/-- Witness for C7 (amended): both parts applied at concrete inputs. -/
theorem C7_emoji_replacement_uniform_witness :
    replace_emoji_in_code (fun _ => none) (chars "hi👍") =
      replace_emoji_in_text (fun _ => none) (chars "hi👍") false ∧
    replace_emoji_in_text (fun _ => none) (chars "hi👍") true = chars "hi👍" :=
  ⟨C7_emoji_replacement_uniform.1 _ _,
    C7_emoji_replacement_uniform.2 _ _ true (fun _ => rfl)⟩


/-- Counterexample for C5: on an SVG with an explicit zero width, the
cairosvg path raises and the generic exception handler hands the SVG to
the Inkscape fallback; in an environment where Inkscape succeeds, the
function returns true and creates the output file — the claimed
"failure and no output file" is not guaranteed by the code. -/
theorem C5_zero_svg_counterexample :
    is_zero_dimension (pyStrip (treeGet
      (SvgTree.mk [(chars "width", chars "0"), (chars "height", chars "10")])
      (chars "width") [])) = true ∧
    convert_svg_to_png
      (RasterEnv.mk
        (fun s =>
          if s = chars "<svg width=\"0\" height=\"10\"></svg>" then
            some (SvgTree.mk
              [(chars "width", chars "0"), (chars "height", chars "10")])
          else none)
        (fun _ => []) (fun _ => true) (fun _ => true))
      (chars "<svg width=\"0\" height=\"10\"></svg>") (chars "out.png") true
      [] = (true, [chars "out.png"]) := by
  constructor
  · decide
  · decide

/-- C5 (amended): a zero-width/zero-height SVG is never rasterised
through the primary cairosvg path — `_fix_svg_dimensions` raises first —
and conversion returns false with no file created whenever the Inkscape
fallback is disabled or the external Inkscape invocation fails; with the
fallback enabled, the outcome (including creation of the output file)
follows Inkscape's. -/
theorem C5_zero_svg_no_primary_raster (env : RasterEnv)
    (svg output : Chars) (files : CacheFiles) (tree : SvgTree)
    (hparse : env.parse (clean_svg_content svg) = some tree)
    (hzero :
      is_zero_dimension (pyStrip (treeGet tree (chars "width") [])) = true ∨
      is_zero_dimension (pyStrip (treeGet tree (chars "height") [])) = true)
    (hicon : is_icon_definition (clean_svg_content svg) = false)
    (hfb : ∀ s, env.inkscapeOk s = false) :
    convert_svg_to_png env svg output false files = (false, files) ∧
    convert_svg_to_png env svg output true files = (false, files) := by
  have hfix : fix_svg_dimensions tree = none := by
    unfold fix_svg_dimensions
    rw [if_pos (by rcases hzero with hz | hz <;> simp [hz])]
  constructor
  · unfold convert_svg_to_png
    rw [if_neg (by simp [hicon]), hparse]
    simp only [hfix]
    rw [if_neg (by simp)]
  · unfold convert_svg_to_png
    rw [if_neg (by simp [hicon]), hparse]
    simp only [hfix]
    rw [if_pos trivial]
    unfold convert_with_inkscape
    rw [hfb, if_neg (by simp)]

/-- Witness for C5 (amended): a concrete zero-width SVG in an
environment whose Inkscape fallback fails. -/
theorem C5_zero_svg_no_primary_raster_witness :
    convert_svg_to_png
      (RasterEnv.mk
        (fun s =>
          if s = chars "<svg width=\"0\" height=\"10\"></svg>" then
            some (SvgTree.mk
              [(chars "width", chars "0"), (chars "height", chars "10")])
          else none)
        (fun _ => []) (fun _ => true) (fun _ => false))
      (chars "<svg width=\"0\" height=\"10\"></svg>") (chars "out.png") false
      [] = (false, []) ∧
    convert_svg_to_png
      (RasterEnv.mk
        (fun s =>
          if s = chars "<svg width=\"0\" height=\"10\"></svg>" then
            some (SvgTree.mk
              [(chars "width", chars "0"), (chars "height", chars "10")])
          else none)
        (fun _ => []) (fun _ => true) (fun _ => false))
      (chars "<svg width=\"0\" height=\"10\"></svg>") (chars "out.png") true
      [] = (false, []) :=
  C5_zero_svg_no_primary_raster
    (RasterEnv.mk
      (fun s =>
        if s = chars "<svg width=\"0\" height=\"10\"></svg>" then
          some (SvgTree.mk
            [(chars "width", chars "0"), (chars "height", chars "10")])
        else none)
      (fun _ => []) (fun _ => true) (fun _ => false))
    (chars "<svg width=\"0\" height=\"10\"></svg>") (chars "out.png") []
    (SvgTree.mk [(chars "width", chars "0"), (chars "height", chars "10")])
    (by decide) (Or.inl (by decide)) (by decide) (fun s => rfl)

/-- C9: converting the same SVG content twice yields the same
deterministic content-hash filename both times, and the second
conversion is answered from the `{hash}.png` cache file without invoking
the rasteriser (third component `false`), for any rasteriser that leaves
the file it reports writing. -/
theorem C9_convert_svg_content_cached (hash : Chars → Chars)
    (inner : Chars → Chars → CacheFiles → Bool × CacheFiles)
    (files : CacheFiles) (svg : Chars) (name : Chars) (files1 : CacheFiles)
    (invoked : Bool)
    (hcreate : ∀ s n fs, (inner s n fs).1 = true → n ∈ (inner s n fs).2)
    (hfirst : convert_svg_content_to_png hash inner files svg =
      (some name, files1, invoked)) :
    convert_svg_content_to_png hash inner files1 svg =
      (some name, files1, false) := by
  unfold convert_svg_content_to_png at hfirst ⊢
  by_cases hmem : hash svg ++ chars ".png" ∈ files
  · rw [if_pos hmem] at hfirst
    injection hfirst with h1 h23
    injection h23 with h2 h3
    subst h2
    rw [if_pos hmem, Option.some.inj h1]
  · rw [if_neg hmem] at hfirst
    by_cases hok : (inner svg (hash svg ++ chars ".png") files).1 = true
    · rw [if_pos hok] at hfirst
      injection hfirst with h1 h23
      injection h23 with h2 h3
      have hmem1 : hash svg ++ chars ".png" ∈ files1 := by
        rw [← h2]
        exact hcreate svg _ files hok
      rw [if_pos hmem1, Option.some.inj h1]
    · rw [if_neg hok] at hfirst
      injection hfirst with h1 h23
      simp at h1

/-- Witness for C9: a concrete hash, rasteriser and cache run twice. -/
theorem C9_convert_svg_content_cached_witness :
    convert_svg_content_to_png (fun _ => chars "h")
      (fun _ n fs => (true, n :: fs)) [chars "h.png"] (chars "<svg/>") =
      (some (chars "h.png"), [chars "h.png"], false) :=
  C9_convert_svg_content_cached (fun _ => chars "h")
    (fun _ n fs => (true, n :: fs)) [] (chars "<svg/>") (chars "h.png")
    [chars "h.png"] true (fun s n fs _ => by simp) (by decide)


/-- Counterexample for C2: with the single ignore pattern `node_modules`,
`should_ignore` returns `true` — not `false` as claimed — on
`project/src/node_modules_helper.js`, because the pattern is a substring
of the full path string. -/
theorem C2_should_ignore_counterexample :
    should_ignore [chars "node_modules"]
      (chars "project/src/node_modules_helper.js") = true := by decide

/-- C2 (amended): with ignore pattern `node_modules`, the path
`project/node_modules/pkg/index.js` is excluded, and so is every path
containing `node_modules` as a substring of its full path string — in
particular `project/src/node_modules_helper.js` is over-excluded. -/
theorem C2_should_ignore_substring :
    should_ignore [chars "node_modules"]
      (chars "project/node_modules/pkg/index.js") = true ∧
    ∀ path : Chars, strContains path (chars "node_modules") = true →
      should_ignore [chars "node_modules"] path = true := by
  refine ⟨by decide, fun path h => ?_⟩
  simp [should_ignore, h]

/-- Witness for C2 (amended): the substring hypothesis holds concretely
for `project/src/node_modules_helper.js`, which is therefore ignored. -/
theorem C2_should_ignore_substring_witness :
    strContains (chars "project/src/node_modules_helper.js")
      (chars "node_modules") = true ∧
    should_ignore [chars "node_modules"]
      (chars "project/src/node_modules_helper.js") = true :=
  ⟨by decide, C2_should_ignore_substring.2 _ (by decide)⟩

theorem dropWhile_eq_self_of_head (p : Char → Bool) (s : Chars)
    (h : ∀ c ∈ s, p c = false) : s.dropWhile p = s := by
  cases s with
  | nil => rfl
  | cons c r =>
    rw [List.dropWhile_cons, h c (List.mem_cons_self c r)]
    simp

theorem pyStrip_of_no_ws (s : Chars) (h : ∀ c ∈ s, isPyWs c = false) :
    pyStrip s = s := by
  unfold pyStrip
  rw [dropWhile_eq_self_of_head _ _ h,
    dropWhile_eq_self_of_head _ _ (fun c hc => h c (List.mem_reverse.mp hc)),
    List.reverse_reverse]

theorem strContains_single_false (s : Chars) (c : Char) (h : c ∉ s) :
    strContains s [c] = false := by
  induction s with
  | nil => rfl
  | cons d r ih =>
    have hcd : ¬(c = d) := fun e => h (by rw [e]; exact List.mem_cons_self d r)
    rw [strContains, if_neg (by simp [List.isPrefixOf, hcd])]
    exact ih (fun hm => h (List.mem_cons_of_mem d hm))

theorem lbFree_replicate (n : Nat) (c : Char) (h : isLineBreak c = false) :
    lbFree (List.replicate n c) = true := by
  rw [lbFree, List.all_eq_true]
  intro a ha
  rw [List.eq_of_mem_replicate ha, h]
  rfl

theorem getLast?_cons_replicate (x : α) :
    ∀ (n : Nat) (a : α), n ≠ 0 →
      (a :: List.replicate n x).getLast? = some x
  | 0, _, hn => absurd rfl hn
  | n + 1, a, _ => by
    rw [List.replicate_succ, List.getLast?_cons_cons]
    cases n with
    | zero => rfl
    | succ m => exact getLast?_cons_replicate x (m + 1) x (by simp)

theorem pyJoin_two_cons (u v : Chars) (xs : List Chars) (hxs : xs ≠ []) :
    pyJoin ['\n'] (pyJoin ['\n'] [u, v] :: xs) = pyJoin ['\n'] (u :: v :: xs) := by
  cases xs with
  | nil => exact absurd rfl hxs
  | cons r rs => simp [pyJoin, List.append_assoc]

theorem replace_emoji_none_id (ensurePng : Chars → Option Chars)
    (h : ∀ seq, ensurePng seq = none) (text : Chars) (in_code : Bool) :
    replace_emoji_in_text ensurePng text in_code = text := by
  unfold replace_emoji_in_text reSub
  refine reSubFuel_id _ (fun s n r hm => ?_) _ _
  unfold emojiMatcher at hm
  cases hl : emojiMatchLen s with
  | none => rw [hl] at hm; simp at hm
  | some n0 =>
    rw [hl] at hm
    have hm2 : (n0, emojiReplacement ensurePng (s.take n0)) = (n, r) :=
      Option.some.inj hm
    have h1 : n0 = n := congrArg Prod.fst hm2
    have h2 : emojiReplacement ensurePng (s.take n0) = r :=
      congrArg Prod.snd hm2
    subst h1
    rw [← h2]
    unfold emojiReplacement
    rw [h]

set_option maxRecDepth 40000

theorem c4_lines_eq :
    splitlinesPy (pyJoin ['\n']
        (List.replicate 300 'a' :: List.replicate 1499 (['x'] : Chars))) =
      List.replicate 300 'a' :: List.replicate 1499 (['x'] : Chars) := by
  apply splitlinesPy_pyJoin_id
  · exact List.cons_ne_nil _ _
  · intro e he
    rcases List.mem_cons.mp he with rfl | hm
    · exact lbFree_replicate 300 'a' (by decide)
    · rw [List.eq_of_mem_replicate hm]
      decide
  · rw [getLast?_cons_replicate (['x'] : Chars) 1499
      (List.replicate 300 'a') (by decide)]
    simp

theorem c4_lines2_eq :
    splitlinesPy (pyJoin ['\n']
        (List.replicate 150 'a' :: List.replicate 150 'a' ::
          List.replicate 1499 (['x'] : Chars))) =
      List.replicate 150 'a' :: List.replicate 150 'a' ::
        List.replicate 1499 (['x'] : Chars) := by
  apply splitlinesPy_pyJoin_id
  · exact List.cons_ne_nil _ _
  · intro e he
    rcases List.mem_cons.mp he with rfl | he2
    · exact lbFree_replicate 150 'a' (by decide)
    rcases List.mem_cons.mp he2 with rfl | hm
    · exact lbFree_replicate 150 'a' (by decide)
    · rw [List.eq_of_mem_replicate hm]
      decide
  · rw [List.getLast?_cons_cons,
      getLast?_cons_replicate (['x'] : Chars) 1499
        (List.replicate 150 'a') (by decide)]
    simp

theorem c4_extract_eq :
    extract_header_comment
        (pyJoin ['\n']
          (List.replicate 300 'a' :: List.replicate 1499 (['x'] : Chars)))
        (chars ".txt") =
      ([], pyJoin ['\n']
        (List.replicate 300 'a' :: List.replicate 1499 (['x'] : Chars))) := by
  have hstrip : pyStrip (List.replicate 300 'a') = List.replicate 300 'a' :=
    pyStrip_of_no_ws _ (fun c hc => by rw [List.eq_of_mem_replicate hc]; decide)
  unfold extract_header_comment
  simp only [c4_lines_eq, List.headD_cons, hstrip]
  rw [if_neg (List.cons_ne_nil _ _), if_neg (by decide)]
  rw [if_neg (by decide), if_neg (by decide), if_neg (by decide)]

theorem c4_pll_eq :
    process_long_lines
        (pyJoin ['\n']
          (List.replicate 300 'a' :: List.replicate 1499 (['x'] : Chars))) 80 =
      pyJoin ['\n']
        (List.replicate 300 'a' :: List.replicate 1499 (['x'] : Chars)) := by
  unfold process_long_lines
  rw [c4_lines_eq]
  refine congrArg (pyJoin ['\n'])
    (Eq.trans (List.map_congr_left ?_) (List.map_id _))
  intro e he
  rcases List.mem_cons.mp he with rfl | hm
  · have hlb : strContains (List.replicate 300 'a') ['['] = false :=
      strContains_single_false _ _ (by simp [List.mem_replicate])
    have hq1 : strContains (List.replicate 300 'a') ['"'] = false :=
      strContains_single_false _ _ (by simp [List.mem_replicate])
    have hq2 : strContains (List.replicate 300 'a') ['\''] = false :=
      strContains_single_false _ _ (by simp [List.mem_replicate])
    show (if (List.replicate 300 'a').length ≤ 80 then List.replicate 300 'a'
      else if strContains (List.replicate 300 'a') ['['] &&
          strContains (List.replicate 300 'a') [']'] then
        break_array_line (List.replicate 300 'a') 80
      else if strContains (List.replicate 300 'a') ['"'] ||
          strContains (List.replicate 300 'a') ['\''] then
        break_long_strings (List.replicate 300 'a')
      else List.replicate 300 'a') = id (List.replicate 300 'a')
    rw [if_neg (by rw [List.length_replicate]; omega),
      if_neg (by rw [hlb]; simp), if_neg (by rw [hq1, hq2]; simp)]
    rfl
  · rw [List.eq_of_mem_replicate hm]
    decide

theorem c4_wrap_eq :
    hard_wrap_lines 200
        (pyJoin ['\n']
          (List.replicate 300 'a' :: List.replicate 1499 (['x'] : Chars))) =
      pyJoin ['\n']
        (List.replicate 150 'a' :: List.replicate 150 'a' ::
          List.replicate 1499 (['x'] : Chars)) := by
  unfold hard_wrap_lines
  rw [c4_lines_eq, List.map_cons, List.map_replicate]
  have h1 : hardWrapLine 200 (List.replicate 300 'a') =
      pyJoin ['\n'] [List.replicate 150 'a', List.replicate 150 'a'] := by
    unfold hardWrapLine
    rw [if_pos (by decide)]
    rw [show wrap_width 200 = 150 from by decide]
    rw [show chunksOf 150 (List.replicate 300 'a') =
      [List.replicate 150 'a', List.replicate 150 'a'] from by decide]
  have h2 : hardWrapLine 200 (['x'] : Chars) = ['x'] := by decide
  rw [h1, h2]
  exact pyJoin_two_cons _ _ _ (by simp)

theorem c4_pipeline_eq :
    process_code_file ⟨200, true, true⟩ (fun _ => none)
        (pyJoin ['\n']
          (List.replicate 300 'a' :: List.replicate 1499 (['x'] : Chars)))
        (chars ".txt") (chars "big.txt") =
      chars "\n\n# big.txt\n\n" ++
        split_large_file (chars "big.txt")
          (List.replicate 150 'a' :: List.replicate 150 'a' ::
            List.replicate 1499 (['x'] : Chars)) (chars "text") := by
  have hlang : code_lang (chars ".txt") = chars "text" := by decide
  unfold process_code_file
  simp only [c4_extract_eq, MAX_LINE_LENGTH_DEFAULT, c4_pll_eq, c4_wrap_eq,
    replace_emoji_in_code, replace_emoji_none_id (fun _ => none) (fun _ => rfl),
    c4_lines2_eq, MAX_LINES_BEFORE_SPLIT, hlang, if_true,
    List.length_cons, List.length_replicate, ne_eq, not_true]
  rw [if_pos (by omega)]
  simp only [if_false, List.append_nil]
  rw [show (chars "\n\n# big.txt\n\n" : Chars) =
    chars "\n\n# " ++ (chars "big.txt" ++ chars "\n\n") from by decide]
  simp [List.append_assoc]

/-- Counterexample for C4: a 1500-line file whose first line is 300
characters long is re-wrapped by the long-line pass into 1501 lines
before splitting (the 300-character line becomes two 150-character
lines), so the two emitted part titles carry the ranges 1-800 and
801-1501 — not the claimed 801-1500 — and the part bodies reproduce the
wrapped lines, not the original 1500 lines verbatim. -/
theorem C4_hard_wrap_range_counterexample :
    (splitlinesPy (pyJoin ['\n']
        (List.replicate 300 'a' :: List.replicate 1499 (['x'] : Chars)))).length
      = 1500 ∧
    process_code_file ⟨200, true, true⟩ (fun _ => none)
        (pyJoin ['\n']
          (List.replicate 300 'a' :: List.replicate 1499 (['x'] : Chars)))
        (chars ".txt") (chars "big.txt") =
      chars "\n\n# big.txt\n\n" ++
        split_large_file (chars "big.txt")
          (List.replicate 150 'a' :: List.replicate 150 'a' ::
            List.replicate 1499 (['x'] : Chars)) (chars "text") ∧
    strContains (split_large_file (chars "big.txt")
        (List.replicate 150 'a' :: List.replicate 150 'a' ::
          List.replicate 1499 (['x'] : Chars)) (chars "text"))
      (chars "(行 801-1501)") = true ∧
    strContains (split_large_file (chars "big.txt")
        (List.replicate 150 'a' :: List.replicate 150 'a' ::
          List.replicate 1499 (['x'] : Chars)) (chars "text"))
      (chars "801-1500") = false := by
  refine ⟨?_, c4_pipeline_eq, by decide, by decide⟩
  rw [c4_lines_eq, List.length_cons, List.length_replicate]

/-- C4 (amended): `_split_large_file` on exactly 1500 lines (as they
stand after the long-line, hard-wrap and emoji passes, with neither
chunk containing the legacy `§emojiimg` marker) emits exactly two parts
titled with line ranges 1-800 and 801-1500, each a fenced block holding
one chunk, and the two chunks concatenate back to the 1500 input lines
verbatim; the line count the titles refer to is the transformed one, so
a raw 1500-line file keeps these titles only when no line is re-wrapped
by the preceding passes. -/
theorem C4_split_large_file_1500 (relative_path lang : Chars)
    (lines : List Chars) (hlen : lines.length = 1500)
    (h1 : strContains (pyJoin ['\n'] (lines.take 800))
      (chars "§emojiimg") = false)
    (h2 : strContains (pyJoin ['\n'] (lines.drop 800))
      (chars "§emojiimg") = false) :
    split_large_file relative_path lines lang =
      split_note 1500 2 ++
        (part_header relative_path 1 2 1 800 ++
          ((chars "\n`````" ++ lang ++ chars "\n" ++
            pyJoin ['\n'] (lines.take 800) ++ chars "\n`````\n") ++
            (part_header relative_path 2 2 801 1500 ++
              ((chars "\n`````" ++ lang ++ chars "\n" ++
                pyJoin ['\n'] (lines.drop 800) ++ chars "\n`````\n") ++
                [])))) ∧
    lines.take 800 ++ lines.drop 800 = lines := by
  constructor
  · simp only [split_large_file, hlen, CHUNK_SIZE_LINES, splitPartsAux]
    norm_num
    have hdt : List.take 700 (List.drop 800 lines) = List.drop 800 lines :=
      List.take_of_length_le (by rw [List.length_drop, hlen])
    rw [hdt]
    simp [split_part_block, h1, h2, List.append_assoc]
  · exact List.take_append_drop 800 lines

/-- Witness for C4 (amended): the theorem applied to 1500 concrete
one-character lines. -/
theorem C4_split_large_file_1500_witness :
    (List.replicate 1500 (['x'] : Chars)).take 800 ++
      (List.replicate 1500 (['x'] : Chars)).drop 800 =
      List.replicate 1500 (['x'] : Chars) :=
  (C4_split_large_file_1500 (chars "f.py") (chars "python")
    (List.replicate 1500 (['x'] : Chars)) (by simp) (by decide) (by decide)).2

/-- C1 (code bug): with every remote download failing, the full
markdown pipeline maps `![a]![m\nn](http://v)(http://u)` to
`![a](http://u)` — a remote inline image target that the final scrub's
own pattern still matches.  The inline-image pass misses both candidate
references because its lazy `(.*?)` groups cannot cross the newline
inside the first alt text, while the scrub's `[^\]]*` alt can; deleting
the match `![m\nn](http://v)` splices `![a]` onto `(http://u)`, and the
single-pass `re.sub` never rescans the spliced text, so the claimed
zero-remote-image invariant fails. -/
theorem C1_residual_remote_image_code_bug :
    process_markdown_content
        ⟨fun _ => none, fun p => p, fun _ => none, fun _ => none,
          fun _ => false, fun _ => none⟩ 200
        (chars "![a]![m\nn](http://v)(http://u)") =
      chars "![a](http://u)" ∧
    (scrubInlineLen (chars "![a](http://u)")).isSome = true :=
  ⟨by decide, by decide⟩
